import Mathlib

/-!
SC4 regional supply/demand: the resource ledger and its serial record.

A shallow embedding of `RegionalSupplyManager` (src/RegionalSupplyManager.cpp), of the
scripting bridge (src/RegionalSupplyLua.cpp) and of the building-occupant handlers
(src/RegionalSupplyDemandDllDirector.cpp), with the properties of the ledger, of its
persistence format, of the bridge and of the handlers proved about the embedding.

Conventions
* `uint32_t` values are natural numbers below `2 ^ 32`; `int64_t` values are integers in
  `[-2 ^ 63, 2 ^ 63)`.  Signed 64-bit arithmetic is reduced with `wrapInt64`
  (two's-complement wrap-around, which is what the 32-bit x86 build of the plugin executes;
  the C++ standard leaves signed overflow undefined).
* `std::unordered_map<uint32_t, int64_t>` is an association list in iteration order.  The
  standard leaves the iteration order unspecified, so theorems quantify over every list.
* Lines written to the log file are not part of the embedding.
-/

namespace RegionalSupply

/-! ## Machine integers -/

/-- Number of values of `uint32_t`. -/
def UINT32_RANGE : Nat := 4294967296

/-- Smallest `int64_t`. -/
def INT64_MIN : Int := -9223372036854775808

/-- Largest `int64_t`. -/
def INT64_MAX : Int := 9223372036854775807

/-- Result of a signed 64-bit operation whose exact result is `x`: reduced modulo `2 ^ 64`
into `[-2 ^ 63, 2 ^ 63)`. -/
def wrapInt64 (x : Int) : Int :=
  (x + 9223372036854775808) % 18446744073709551616 - 9223372036854775808

/-- Predicate: `x` is a value of `int64_t`. -/
def IsInt64 (x : Int) : Prop := INT64_MIN ≤ x ∧ x ≤ INT64_MAX

/-! ## The ledger: `std::unordered_map<uint32_t, int64_t> resources` -/

/-- Member `resources`: the entries in iteration order. -/
abbrev Ledger := List (Nat × Int)

/-- Method `resources.find(resourceID)`: the mapped value of the entry with that key, `none`
for `resources.end()`. -/
def find (resources : Ledger) (resourceID : Nat) : Option Int :=
  match resources with
  | [] => none
  | (k, v) :: rest => if k = resourceID then some v else find rest resourceID

/-- Assignment through the iterator returned by `find`: `it->second = f (it->second)`. -/
def assign (resources : Ledger) (resourceID : Nat) (f : Int → Int) : Ledger :=
  match resources with
  | [] => []
  | (k, v) :: rest =>
    if k = resourceID then (k, f v) :: rest else (k, v) :: assign rest resourceID f

/-- Method `resources.emplace(resourceID, quantity)`: inserts the pair unless the key is
already present, in which case the map is left as it is. -/
def emplace (resources : Ledger) (resourceID : Nat) (quantity : Int) : Ledger :=
  match find resources resourceID with
  | some _ => resources
  | none => resources ++ [(resourceID, quantity)]

/-- Class invariant of the map type: keys are unique and are `uint32_t`, mapped values are
`int64_t`. -/
def WellFormed (resources : Ledger) : Prop :=
  (resources.map Prod.fst).Nodup ∧
    ∀ p ∈ resources, p.1 < UINT32_RANGE ∧ IsInt64 p.2

/-- Method `RegionalSupplyManager::AddToSupply`. -/
def AddToSupply (resources : Ledger) (resourceID amount : Nat) : Ledger :=
  match find resources resourceID with
  | some _ => assign resources resourceID (fun q => wrapInt64 (q + (amount : Int)))
  | none => emplace resources resourceID (amount : Int)

/-- Method `RegionalSupplyManager::RemoveFromSupply`. -/
def RemoveFromSupply (resources : Ledger) (resourceID amount : Nat) : Ledger :=
  match find resources resourceID with
  | some _ => assign resources resourceID (fun q => wrapInt64 (q - (amount : Int)))
  | none => emplace resources resourceID (-(amount : Int))

/-- Method `RegionalSupplyManager::AddToDemand`. -/
def AddToDemand (resources : Ledger) (resourceID amount : Nat) : Ledger :=
  RemoveFromSupply resources resourceID amount

/-- Method `RegionalSupplyManager::RemoveFromDemand`. -/
def RemoveFromDemand (resources : Ledger) (resourceID amount : Nat) : Ledger :=
  AddToSupply resources resourceID amount

/-- Method `RegionalSupplyManager::GetResourceQuantity`, in state-passing form: the returned
quantity and the map after the call. -/
def GetResourceQuantity (resources : Ledger) (resourceID : Nat) : Int × Ledger :=
  let supply : Int := 0
  match find resources resourceID with
  | some q => (q, resources)
  | none => (supply, resources)

/-! ## The persistent serial record (`cIGZPersistDBSerialRecord`) -/

/-- One typed field of a serial record. -/
inductive Field where
  | uint32 (value : Nat)
  | sint64 (value : Int)
  deriving DecidableEq, Repr

/-- Modelled from the spec: `cIGZPersistDBSerialRecord::GetFieldUint32` of the host SDK, a
sequential typed read.  A record opened for reading is the list of its fields not yet read;
the read succeeds, consuming one field, exactly when the next field is a `uint32`. -/
def GetFieldUint32 (record : List Field) : Option (Nat × List Field) :=
  match record with
  | Field.uint32 v :: rest => some (v, rest)
  | _ => none

/-- Modelled from the spec: `cIGZPersistDBSerialRecord::GetFieldSint64` of the host SDK, the
sequential typed read of an `int64` field. -/
def GetFieldSint64 (record : List Field) : Option (Int × List Field) :=
  match record with
  | Field.sint64 v :: rest => some (v, rest)
  | _ => none

/-- A record opened for writing: the fields it holds, and the log of every field write that
was issued to it (accepted or not). -/
structure WriteRecord where
  fields : List Field
  issued : List Field
  deriving DecidableEq, Repr

/-- Modelled from the spec: the field writes `SetFieldUint32` / `SetFieldSint64` of
`cIGZPersistDBSerialRecord` (host SDK).  Whether the record accepts a write is decided by
`accept` from the fields held so far and the field offered; an accepted field is appended,
a rejected one leaves the held fields as they are. -/
def SetField (accept : List Field → Field → Bool) (record : WriteRecord) (f : Field) :
    Bool × WriteRecord :=
  if accept record.fields f then
    (true, ⟨record.fields ++ [f], record.issued ++ [f]⟩)
  else
    (false, ⟨record.fields, record.issued ++ [f]⟩)

/-- Call `record.SetFieldUint32(value)`. -/
def SetFieldUint32 (accept : List Field → Field → Bool) (record : WriteRecord) (value : Nat) :
    Bool × WriteRecord :=
  SetField accept record (Field.uint32 value)

/-- Call `record.SetFieldSint64(value)`. -/
def SetFieldSint64 (accept : List Field → Field → Bool) (record : WriteRecord) (value : Int) :
    Bool × WriteRecord :=
  SetField accept record (Field.sint64 value)

/-- The `for (uint32_t i = 0; i < itemCount; i++)` loop of `LoadFromSerialRecord`, with
`itemCount - i` iterations left. -/
def loadItems (remaining : Nat) (resources : Ledger) (record : List Field) : Bool × Ledger :=
  match remaining with
  | 0 => (true, resources)
  | n + 1 =>
    match GetFieldUint32 record with
    | none => (false, resources)
    | some (resourceID, record1) =>
      match GetFieldSint64 record1 with
      | none => (false, resources)
      | some (resourceQuantity, record2) =>
        loadItems n (emplace resources resourceID resourceQuantity) record2

/-- Method `RegionalSupplyManager::LoadFromSerialRecord`: the returned flag and the map after
the call. -/
def LoadFromSerialRecord (resources : Ledger) (record : List Field) : Bool × Ledger :=
  match GetFieldUint32 record with
  | none => (false, resources)
  | some (version, record1) =>
    if version ≠ 1 then (false, resources)
    else
      match GetFieldUint32 record1 with
      | none => (false, resources)
      | some (itemCount, record2) => loadItems itemCount resources record2

/-- The `for (auto& item : resources)` loop of `SaveToSerialRecord` over the entries still
to be visited. -/
def saveItems (accept : List Field → Field → Bool) (items : Ledger) (record : WriteRecord) :
    Bool × WriteRecord :=
  match items with
  | [] => (true, record)
  | item :: rest =>
    match SetFieldUint32 accept record item.1 with
    | (false, record1) => (false, record1)
    | (true, record1) =>
      match SetFieldSint64 accept record1 item.2 with
      | (false, record2) => (false, record2)
      | (true, record2) => saveItems accept rest record2

/-- Method `RegionalSupplyManager::SaveToSerialRecord`: the returned flag and the record after
the call.  `resources.size()` is narrowed to the `uint32_t` parameter of `SetFieldUint32`. -/
def SaveToSerialRecord (accept : List Field → Field → Bool) (resources : Ledger)
    (record : WriteRecord) : Bool × WriteRecord :=
  match SetFieldUint32 accept record 1 with
  | (false, record1) => (false, record1)
  | (true, record1) =>
    match SetFieldUint32 accept record1 (resources.length % UINT32_RANGE) with
    | (false, record2) => (false, record2)
    | (true, record2) => saveItems accept resources record2

/-- Modelled from the spec: the persistence segment (`cIGZPersistDBSegment`, host SDK) as
`Load` sees it.  `stored` is the record found under the fixed resource key (`OpenRecord`
fails when there is none) and `serial` tells whether `QueryInterface` hands out its
serial-record interface. -/
structure Segment where
  stored : Option (List Field)
  serial : Bool

/-- Method `RegionalSupplyManager::Load`: the map after the call. -/
def Load (_resources : Ledger) (pSegment : Segment) : Ledger :=
  let cleared : Ledger := []
  match pSegment.stored with
  | none => cleared
  | some record =>
    if pSegment.serial then
      match LoadFromSerialRecord cleared record with
      | (false, _) => []
      | (true, loaded) => loaded
    else cleared

/-! ## The scripting bridge (src/RegionalSupplyLua.cpp) -/

/-- A value on the Lua stack.  A number (a `double` in the host) is represented by its
integer value; every other Lua type is `other`. -/
inductive LuaValue where
  | number (value : Int)
  | other
  deriving DecidableEq, Repr

/-- Stack access `pLua->Type(index)` / `pLua->ToNumber(index)` for a negative index: `-1` is
the top of the stack (the last argument), `-2` the one below it. -/
def stackAt (stack : List LuaValue) (index : Int) : LuaValue :=
  (stack.reverse.get? (-index - 1).toNat).getD LuaValue.other

/-- Conversion `static_cast<uint32_t>(number)`: the number itself when it is in the range of
`uint32_t`; outside that range C++ leaves the result undefined and `outOfRange` stands for
whatever 32-bit value the hardware produces. -/
def castUint32 (outOfRange : Int → Nat) (number : Int) : Nat :=
  if 0 ≤ number ∧ number < 4294967296 then number.toNat else outOfRange number % UINT32_RANGE

/-- Function `TryGetNumberAsUint32(pLua, index, value)`: the returned flag and the value of
the reference parameter `value` after the call.  `value` is its content on entry. -/
def TryGetNumberAsUint32 (outOfRange : Int → Nat) (stack : List LuaValue) (index : Int)
    (value : Nat) : Bool × Nat :=
  match stackAt stack index with
  | LuaValue.other => (false, 0)
  | LuaValue.number number =>
    if value < 0 ∨ value > 4294967295 then (false, 0)
    else (true, castUint32 outOfRange number)

/-- Entry point `RegionalSupplyLua::AddToDemand` (`add_to_demand`): the ledger of the global
supply manager after the call and the number of results returned to Lua. -/
def luaAddToDemand (outOfRange : Int → Nat) (resources : Ledger) (stack : List LuaValue) :
    Ledger × Int :=
  let parameterCount := stack.length
  if parameterCount = 2 then
    match TryGetNumberAsUint32 outOfRange stack (-1) 0 with
    | (false, _) => (resources, 0)
    | (true, amount) =>
      match TryGetNumberAsUint32 outOfRange stack (-2) 0 with
      | (false, _) => (resources, 0)
      | (true, resourceID) => (AddToDemand resources resourceID amount, 0)
  else (resources, 0)

/-! ## The record layout of the spec -/

/-- The fields of a sequence of (id, quantity) pairs: `(uint32 id, int64 quantity)` for each
pair, in order. -/
def pairFields (items : List (Nat × Int)) : List Field :=
  match items with
  | [] => []
  | p :: rest => Field.uint32 p.1 :: Field.sint64 p.2 :: pairFields rest

/-- The record layout `[uint32 version = 1][uint32 item_count][(uint32 id, int64 quantity) ×
item_count]` for a sequence of pairs. -/
def recordLayout (items : List (Nat × Int)) : List Field :=
  Field.uint32 1 :: Field.uint32 items.length :: pairFields items

/-- A record that is rejected: its version field is absent, or is not exactly 1, or a later
field read fails: that of the item count, or that of one of the declared `n` pairs (the
fields after the count do not start with `n` complete (uint32, int64) pairs). -/
def Rejected (record : List Field) : Prop :=
  (∀ v rest, record ≠ Field.uint32 v :: rest) ∨
  (∃ v rest, record = Field.uint32 v :: rest ∧ v ≠ 1) ∨
  (∃ rest, record = Field.uint32 1 :: rest ∧ ∀ n body, rest ≠ Field.uint32 n :: body) ∨
  (∃ n body, record = Field.uint32 1 :: Field.uint32 n :: body ∧
    ∀ pairs trailing, pairs.length = n → body ≠ pairFields pairs ++ trailing)

/-- Issuing the field writes `fs` in order, stopping at the first one the record rejects:
the flag tells whether all were accepted. -/
def writeFields (accept : List Field → Field → Bool) (fs : List Field) (record : WriteRecord) :
    Bool × WriteRecord :=
  match fs with
  | [] => (true, record)
  | f :: rest =>
    match SetField accept record f with
    | (false, record1) => (false, record1)
    | (true, record1) => writeFields accept rest record1

/-- Round trip: `SaveToSerialRecord` of the entries in iteration order `order` to an empty
record that accepts every field write, then `LoadFromSerialRecord` of the fields that record
holds into a fresh (empty) ledger. -/
def saveThenLoad (order : Ledger) : Bool × Ledger :=
  LoadFromSerialRecord [] (SaveToSerialRecord (fun _ _ => true) order ⟨[], []⟩).2.fields

/-! ## The remaining entry points of the scripting bridge -/

/-- Entry point `RegionalSupplyLua::RemoveFromDemand` (`remove_from_demand`): the ledger of
the global supply manager after the call and the number of results returned to Lua. -/
def luaRemoveFromDemand (outOfRange : Int → Nat) (resources : Ledger) (stack : List LuaValue) :
    Ledger × Int :=
  let parameterCount := stack.length
  if parameterCount = 2 then
    match TryGetNumberAsUint32 outOfRange stack (-1) 0 with
    | (false, _) => (resources, 0)
    | (true, amount) =>
      match TryGetNumberAsUint32 outOfRange stack (-2) 0 with
      | (false, _) => (resources, 0)
      | (true, resourceID) => (RemoveFromDemand resources resourceID amount, 0)
  else (resources, 0)

/-- Entry point `RegionalSupplyLua::AddToSupply` (`add_to_supply`): the ledger of the global
supply manager after the call and the number of results returned to Lua. -/
def luaAddToSupply (outOfRange : Int → Nat) (resources : Ledger) (stack : List LuaValue) :
    Ledger × Int :=
  let parameterCount := stack.length
  if parameterCount = 2 then
    match TryGetNumberAsUint32 outOfRange stack (-1) 0 with
    | (false, _) => (resources, 0)
    | (true, amount) =>
      match TryGetNumberAsUint32 outOfRange stack (-2) 0 with
      | (false, _) => (resources, 0)
      | (true, resourceID) => (AddToSupply resources resourceID amount, 0)
  else (resources, 0)

/-- Entry point `RegionalSupplyLua::RemoveFromSupply` (`remove_from_supply`): the ledger of
the global supply manager after the call and the number of results returned to Lua. -/
def luaRemoveFromSupply (outOfRange : Int → Nat) (resources : Ledger) (stack : List LuaValue) :
    Ledger × Int :=
  let parameterCount := stack.length
  if parameterCount = 2 then
    match TryGetNumberAsUint32 outOfRange stack (-1) 0 with
    | (false, _) => (resources, 0)
    | (true, amount) =>
      match TryGetNumberAsUint32 outOfRange stack (-2) 0 with
      | (false, _) => (resources, 0)
      | (true, resourceID) => (RemoveFromSupply resources resourceID amount, 0)
  else (resources, 0)

/-- What `RegionalSupplyLua::GetResourceQuantity` leaves behind: the ledger of the global
supply manager, the `int64_t quantity` handed to `PushNumber`, the number of results returned
to Lua, and whether the manager was queried. -/
structure QueryOutcome where
  resources : Ledger
  pushed : Int
  results : Int
  queried : Bool
  deriving DecidableEq, Repr

/-- Entry point `RegionalSupplyLua::GetResourceQuantity` (`get_resource_quantity`). -/
def luaGetResourceQuantity (outOfRange : Int → Nat) (resources : Ledger)
    (stack : List LuaValue) : QueryOutcome :=
  let quantity : Int := 0
  let parameterCount := stack.length
  if parameterCount = 1 then
    match TryGetNumberAsUint32 outOfRange stack (-1) 0 with
    | (false, _) => ⟨resources, quantity, 1, false⟩
    | (true, resourceID) =>
      ⟨(GetResourceQuantity resources resourceID).2,
        (GetResourceQuantity resources resourceID).1, 1, true⟩
  else ⟨resources, quantity, 1, false⟩

/-! ## Saving to the persistence segment -/

/-- A call made on the persistence segment. -/
inductive SegmentCall where
  | openRecord
  | closeRecord
  | abortRecord
  deriving DecidableEq, Repr

/-- Modelled from the spec: the persistence segment (`cIGZPersistDBSegment`, host SDK) as
`Save` sees it.  `persisted` is the record durably stored under the fixed resource key,
`opens` tells whether `OpenRecord` succeeds, `serial` whether `QueryInterface` hands out the
serial-record interface, and `calls` logs the calls made on the segment.  `CloseRecord`
commits the fields the record holds, `AbortRecord` discards them. -/
structure SaveSegment where
  persisted : Option (List Field)
  opens : Bool
  serial : Bool
  calls : List SegmentCall
  deriving DecidableEq, Repr

/-- Call `pSegment->OpenRecord(key, record.AsPPObj(), ReadWrite)`. -/
def OpenRecord (pSegment : SaveSegment) : Bool × SaveSegment :=
  (pSegment.opens,
    ⟨pSegment.persisted, pSegment.opens, pSegment.serial,
      pSegment.calls ++ [SegmentCall.openRecord]⟩)

/-- Call `pSegment->CloseRecord(record)`: the record is committed. -/
def CloseRecord (pSegment : SaveSegment) (record : WriteRecord) : SaveSegment :=
  ⟨some record.fields, pSegment.opens, pSegment.serial,
    pSegment.calls ++ [SegmentCall.closeRecord]⟩

/-- Call `pSegment->AbortRecord(record)`: the record is discarded. -/
def AbortRecord (pSegment : SaveSegment) (_record : WriteRecord) : SaveSegment :=
  ⟨pSegment.persisted, pSegment.opens, pSegment.serial,
    pSegment.calls ++ [SegmentCall.abortRecord]⟩

/-- Method `RegionalSupplyManager::Save`: the segment after the call.  The record that
`OpenRecord` hands out starts without fields; `accept` decides the field writes. -/
def Save (accept : List Field → Field → Bool) (resources : Ledger) (pSegment : SaveSegment) :
    SaveSegment :=
  if ¬ resources.isEmpty then
    match OpenRecord pSegment with
    | (false, segment1) => segment1
    | (true, segment1) =>
      if segment1.serial then
        match SaveToSerialRecord accept resources ⟨[], []⟩ with
        | (true, serialRecord) => CloseRecord segment1 serialRecord
        | (false, serialRecord) => AbortRecord segment1 serialRecord
      else segment1
  else pSegment

/-! ## Building occupants (src/RegionalSupplyDemandDllDirector.cpp) -/

/-- Constant `OccupantTypeBuilding`. -/
def OccupantTypeBuilding : Nat := 0x278128A0

/-- Constant `RegionalSupplyConsumed`. -/
def RegionalSupplyConsumed : Nat := 0x16F4C223

/-- Constant `RegionalSupplyProduced`. -/
def RegionalSupplyProduced : Nat := 0x16F4C224

/-- Struct `ResourceEntry`. -/
structure ResourceEntry where
  id : Nat
  amount : Nat
  deriving DecidableEq, Repr

/-- A property value (`cIGZVariant`): a `uint32` array, whose `GetCount()` is the length of
`data` and whose `RefUint32()` points at `data`, or a value of any other type. -/
inductive Variant where
  | uint32Array (data : List Nat)
  | other
  deriving DecidableEq, Repr

/-- A property holder (`cISCPropertyHolder`): `GetProperty(id)` is `none` for a null property,
`some none` for a property whose `GetPropertyValue()` is null. -/
abbrev PropertyHolder := Nat → Option (Option Variant)

/-- An occupant (`cISC4Occupant`): its `GetType()` and its `AsPropertyHolder()`. -/
structure Occupant where
  type : Nat
  holder : PropertyHolder

/-- The loop `for (uint32_t i = 0; i < count; i += 2)` of `GetResourceEntries`, from index
`i` on, with `entries` filled so far.  A read `pData[i]` outside the array is undefined in
C++: the result is then `none`, as it is when the loop has not finished after `fuel`
iterations. -/
def readEntries (pData : List Nat) (count : Nat) (fuel : Nat) (i : Nat)
    (entries : List ResourceEntry) : Option (List ResourceEntry) :=
  match fuel with
  | 0 => if i < count then none else some entries
  | fuel + 1 =>
    if i < count then
      match pData[i]?, pData[(i + 1) % UINT32_RANGE]? with
      | some id, some amount =>
        readEntries pData count fuel ((i + 2) % UINT32_RANGE) (entries ++ [⟨id, amount⟩])
      | _, _ => none
    else some entries

/-- Function `GetResourceEntries(pPropertyHolder, id, entries)`: the returned flag and the
vector `entries` after the call; `none` when the call reads outside the array.  The loop
gets `count` iterations of fuel.  The odd-count branch only writes an error line to the log,
which is not part of the embedding. -/
def GetResourceEntries (pPropertyHolder : PropertyHolder) (id : Nat) :
    Option (Bool × List ResourceEntry) :=
  match pPropertyHolder id with
  | none => some (false, [])
  | some none => some (false, [])
  | some (some Variant.other) => some (false, [])
  | some (some (Variant.uint32Array pData)) =>
    let count := pData.length
    if count > 0 then
      if count % 2 = 0 then
        match readEntries pData count count 0 [] with
        | some entries => some (true, entries)
        | none => none
      else some (false, [])
    else some (false, [])

/-- Method `RegionalSupplyDemandDllDirector::OccupantInserted`: the ledger of the supply
manager after the message, `none` when a property read is undefined. -/
def OccupantInserted (resources : Ledger) (pOccupant : Occupant) : Option Ledger :=
  if pOccupant.type = OccupantTypeBuilding then
    match GetResourceEntries pOccupant.holder RegionalSupplyConsumed with
    | none => none
    | some (okConsumed, supplyConsumed) =>
      let resources1 :=
        if okConsumed then
          supplyConsumed.foldl (fun r entry => AddToDemand r entry.id entry.amount) resources
        else resources
      match GetResourceEntries pOccupant.holder RegionalSupplyProduced with
      | none => none
      | some (okProduced, supplyProduced) =>
        if okProduced then
          some (supplyProduced.foldl (fun r entry => AddToSupply r entry.id entry.amount)
            resources1)
        else some resources1
  else some resources

/-- Method `RegionalSupplyDemandDllDirector::OccupantRemoved`: the ledger of the supply
manager after the message, `none` when a property read is undefined. -/
def OccupantRemoved (resources : Ledger) (pOccupant : Occupant) : Option Ledger :=
  if pOccupant.type = OccupantTypeBuilding then
    match GetResourceEntries pOccupant.holder RegionalSupplyConsumed with
    | none => none
    | some (okConsumed, supplyConsumed) =>
      let resources1 :=
        if okConsumed then
          supplyConsumed.foldl (fun r entry => RemoveFromDemand r entry.id entry.amount)
            resources
        else resources
      match GetResourceEntries pOccupant.holder RegionalSupplyProduced with
      | none => none
      | some (okProduced, supplyProduced) =>
        if okProduced then
          some (supplyProduced.foldl (fun r entry => RemoveFromSupply r entry.id entry.amount)
            resources1)
        else some resources1
  else some resources

/-- A `uint32` array as the host hands it out: `GetCount()` fits `uint32_t` and so does every
element. -/
def ValidArray (data : List Nat) : Prop :=
  data.length < UINT32_RANGE ∧ ∀ x ∈ data, x < UINT32_RANGE

/-- The property `id` of the holder, when it is a `uint32` array, is a valid one. -/
def ValidProperty (holder : PropertyHolder) (id : Nat) : Prop :=
  ∀ data, holder id = some (some (Variant.uint32Array data)) → ValidArray data

/-- The holder without its property `id`. -/
def withoutProperty (holder : PropertyHolder) (id : Nat) : PropertyHolder :=
  fun i => if i = id then none else holder i

/-- The id/amount pairs of an array: `(data[0], data[1]), (data[2], data[3]), ...`. -/
def pairUp (data : List Nat) : List ResourceEntry :=
  match data with
  | a :: b :: rest => ⟨a, b⟩ :: pairUp rest
  | _ => []

/-! ## Sequences of mutator calls -/

/-- One call of a ledger mutator. -/
inductive Call where
  | addToSupply (resourceID amount : Nat)
  | removeFromSupply (resourceID amount : Nat)
  | addToDemand (resourceID amount : Nat)
  | removeFromDemand (resourceID amount : Nat)
  deriving DecidableEq, Repr

/-- The ledger after one call. -/
def applyCall (resources : Ledger) (call : Call) : Ledger :=
  match call with
  | Call.addToSupply resourceID amount => AddToSupply resources resourceID amount
  | Call.removeFromSupply resourceID amount => RemoveFromSupply resources resourceID amount
  | Call.addToDemand resourceID amount => AddToDemand resources resourceID amount
  | Call.removeFromDemand resourceID amount => RemoveFromDemand resources resourceID amount

/-- The ledger after a sequence of calls, made in order. -/
def runCalls (calls : List Call) (resources : Ledger) : Ledger :=
  calls.foldl applyCall resources

/-- The `uint32_t` amount of a call. -/
def Call.amount (call : Call) : Nat :=
  match call with
  | Call.addToSupply _ amount => amount
  | Call.removeFromSupply _ amount => amount
  | Call.addToDemand _ amount => amount
  | Call.removeFromDemand _ amount => amount

/-- What a call contributes to the net of `resourceID`: its amount when it is an AddToSupply
or RemoveFromDemand call on that id, minus its amount when it is a RemoveFromSupply or
AddToDemand call on that id, and 0 when it is a call on another id. -/
def contribution (resourceID : Nat) (call : Call) : Int :=
  match call with
  | Call.addToSupply i amount => if i = resourceID then (amount : Int) else 0
  | Call.removeFromSupply i amount => if i = resourceID then -(amount : Int) else 0
  | Call.addToDemand i amount => if i = resourceID then -(amount : Int) else 0
  | Call.removeFromDemand i amount => if i = resourceID then (amount : Int) else 0

/-- Supply minus demand of `resourceID` over a sequence of calls: the sum of the
contributions. -/
def net (calls : List Call) (resourceID : Nat) : Int :=
  (calls.map (contribution resourceID)).sum

/-- Predicate: the call is made on `resourceID`. -/
def Call.onId (resourceID : Nat) (call : Call) : Bool :=
  match call with
  | Call.addToSupply i _ => i = resourceID
  | Call.removeFromSupply i _ => i = resourceID
  | Call.addToDemand i _ => i = resourceID
  | Call.removeFromDemand i _ => i = resourceID

/-! ## Lemmas on the map operations -/

instance instDecidableIsInt64 (x : Int) : Decidable (IsInt64 x) :=
  inferInstanceAs (Decidable (INT64_MIN ≤ x ∧ x ≤ INT64_MAX))

instance instDecidableWellFormed (l : Ledger) : Decidable (WellFormed l) :=
  inferInstanceAs (Decidable ((l.map Prod.fst).Nodup ∧
    ∀ p ∈ l, p.1 < UINT32_RANGE ∧ IsInt64 p.2))

theorem find_nil (j : Nat) : find [] j = none := rfl

theorem find_cons (k : Nat) (v : Int) (rest : Ledger) (j : Nat) :
    find ((k, v) :: rest) j = if k = j then some v else find rest j := rfl

theorem find_mem {l : Ledger} {j : Nat} {b : Int} (h : find l j = some b) : (j, b) ∈ l := by
  induction l with
  | nil => simp [find] at h
  | cons p rest ih =>
    obtain ⟨k, v⟩ := p
    rw [find_cons] at h
    by_cases hk : k = j
    · simp only [hk, if_true, Option.some.injEq] at h
      simp [hk, h]
    · simp only [hk, if_false] at h
      exact List.mem_cons_of_mem _ (ih h)

theorem find_eq_none_iff {l : Ledger} {j : Nat} : find l j = none ↔ j ∉ l.map Prod.fst := by
  induction l with
  | nil => simp [find]
  | cons p rest ih =>
    obtain ⟨k, v⟩ := p
    rw [find_cons]
    by_cases hk : k = j
    · simp [hk]
    · simp only [hk, if_false, ih, List.map_cons, List.mem_cons]
      constructor
      · rintro h (h1 | h1)
        · exact hk h1.symm
        · exact h h1
      · intro h h1
        exact h (Or.inr h1)

theorem find_append (l1 l2 : Ledger) (j : Nat) :
    find (l1 ++ l2) j = (find l1 j).orElse (fun _ => find l2 j) := by
  induction l1 with
  | nil => simp [find]
  | cons p rest ih =>
    obtain ⟨k, v⟩ := p
    rw [List.cons_append, find_cons, find_cons]
    by_cases hk : k = j
    · simp [hk]
    · simp [hk, ih]

theorem find_assign_same (l : Ledger) (j : Nat) (f : Int → Int) :
    find (assign l j f) j = (find l j).map f := by
  induction l with
  | nil => simp [find, assign]
  | cons p rest ih =>
    obtain ⟨k, v⟩ := p
    by_cases hk : k = j
    · simp [assign, find, hk]
    · simp [assign, find, hk, ih]

theorem find_assign_other (l : Ledger) (i j : Nat) (f : Int → Int) (hij : j ≠ i) :
    find (assign l i f) j = find l j := by
  induction l with
  | nil => simp [find, assign]
  | cons p rest ih =>
    obtain ⟨k, v⟩ := p
    have hij2 : ¬ i = j := fun h => hij h.symm
    by_cases hk : k = i
    · subst hk
      simp [assign, find, hij2]
    · by_cases hkj : k = j
      · subst hkj
        simp [assign, find, hij]
      · simp [assign, find, hk, hkj, ih]

theorem find_emplace (l : Ledger) (i : Nat) (q : Int) (j : Nat) :
    find (emplace l i q) j =
      (find l j).orElse (fun _ => if i = j then some q else none) := by
  unfold emplace
  cases hfi : find l i with
  | some b =>
    by_cases hij : i = j
    · subst hij
      simp [hfi]
    · cases hfj : find l j <;> simp [hij]
  | none =>
    simp only [find_append, find_cons, find_nil]

theorem wrapInt64_of_isInt64 {x : Int} (h : IsInt64 x) : wrapInt64 x = x := by
  unfold IsInt64 INT64_MIN INT64_MAX at h
  unfold wrapInt64
  omega

theorem wrapInt64_add_sub (b a : Int) (h : IsInt64 b) : wrapInt64 (wrapInt64 (b + a) - a) = b := by
  unfold IsInt64 INT64_MIN INT64_MAX at h
  unfold wrapInt64
  omega

theorem find_eq_some_iff_mem {l : Ledger} (hnd : (l.map Prod.fst).Nodup) (j : Nat) (b : Int) :
    find l j = some b ↔ (j, b) ∈ l := by
  refine ⟨find_mem, ?_⟩
  induction l with
  | nil => simp
  | cons p rest ih =>
    obtain ⟨k, v⟩ := p
    simp only [List.map_cons, List.nodup_cons] at hnd
    intro hmem
    rw [find_cons]
    rcases List.mem_cons.mp hmem with heq | hrest
    · simp only [Prod.mk.injEq] at heq
      simp [heq.1, heq.2]
    · have hjk : ¬ k = j := by
        intro h
        apply hnd.1
        rw [h]
        exact List.mem_map.mpr ⟨(j, b), hrest, rfl⟩
      simp only [hjk, if_false]
      exact ih hnd.2 hrest

theorem isInt64_of_find {l : Ledger} (hwf : WellFormed l) {j : Nat} {b : Int}
    (h : find l j = some b) : IsInt64 b :=
  (hwf.2 (j, b) (find_mem h)).2

/-! ## The ledger store -/

/-- C1, as stated, fails: in the ledger that maps id 1 to the largest signed 64-bit value,
AddToSupply(1, 1) does not leave old balance + amount (which no signed 64-bit value equals);
the stored balance wraps to the smallest signed 64-bit value. -/
theorem AddToSupply_overflow_counterexample :
    WellFormed [(1, 9223372036854775807)] ∧
    find [(1, 9223372036854775807)] 1 = some 9223372036854775807 ∧
    ¬ IsInt64 (9223372036854775807 + ((1 : Nat) : Int)) ∧
    find (AddToSupply [(1, 9223372036854775807)] 1 1) 1 ≠
      some (9223372036854775807 + ((1 : Nat) : Int)) ∧
    find (AddToSupply [(1, 9223372036854775807)] 1 1) 1 = some (-9223372036854775808) := by
  decide

/-- C1, amended: for every ledger, id and amount in the unsigned 32-bit range, AddToSupply
leaves balance(id) = old balance(id) + amount when id had an entry and that sum does not
exceed the largest signed 64-bit value; when id had no entry it creates one whose balance is
exactly amount, a non-negative signed 64-bit value; every other id keeps what it had. -/
theorem AddToSupply_balance (resources : Ledger) (resourceID amount : Nat)
    (hwf : WellFormed resources) (hamount : amount < UINT32_RANGE)
    (hfit : ∀ b, find resources resourceID = some b → b + (amount : Int) ≤ INT64_MAX) :
    (∀ b, find resources resourceID = some b →
      find (AddToSupply resources resourceID amount) resourceID = some (b + (amount : Int))) ∧
    (find resources resourceID = none →
      find (AddToSupply resources resourceID amount) resourceID = some (amount : Int) ∧
        0 ≤ (amount : Int) ∧ IsInt64 (amount : Int)) ∧
    (∀ j, j ≠ resourceID →
      find (AddToSupply resources resourceID amount) j = find resources j) := by
  refine ⟨?_, ?_, ?_⟩
  · intro b hb
    have hrange : IsInt64 (b + (amount : Int)) := by
      have h1 := isInt64_of_find hwf hb
      have h2 := hfit b hb
      unfold IsInt64 INT64_MIN INT64_MAX at *
      omega
    simp only [AddToSupply, hb, find_assign_same, Option.map_some', wrapInt64_of_isInt64 hrange]
  · intro hnone
    refine ⟨?_, Int.ofNat_nonneg _, ?_⟩
    · simp [AddToSupply, hnone, find_emplace]
    · unfold UINT32_RANGE at hamount
      unfold IsInt64 INT64_MIN INT64_MAX
      omega
  · intro j hj
    cases hfind : find resources resourceID with
    | some b => simp only [AddToSupply, hfind, find_assign_other _ _ _ _ hj]
    | none =>
      have hne : ¬ resourceID = j := fun h => hj h.symm
      simp only [AddToSupply, hfind, find_emplace, hne, if_false]
      cases find resources j <;> rfl

/-- Witness for C1 (amended): the ledger {(7, 42)}, AddToSupply(7, 5) and AddToSupply(9,
4294967295). -/
theorem AddToSupply_balance_witness :
    (WellFormed [(7, 42)] ∧ 5 < UINT32_RANGE ∧
      find (AddToSupply [(7, 42)] 7 5) 7 = some (42 + ((5 : Nat) : Int))) ∧
    (find ([(7, 42)] : Ledger) 9 = none ∧
      find (AddToSupply [(7, 42)] 9 4294967295) 9 = some ((4294967295 : Nat) : Int)) :=
  ⟨⟨by decide, by decide,
    (AddToSupply_balance [(7, 42)] 7 5 (by decide) (by decide) (by decide)).1 42 (by decide)⟩,
   ⟨by decide,
    ((AddToSupply_balance [(7, 42)] 9 4294967295 (by decide) (by decide) (by decide)).2.1
      (by decide)).1⟩⟩

/-- C2, as stated, fails: in the ledger that maps id 1 to the smallest signed 64-bit value,
RemoveFromSupply(1, 1) does not leave old balance - amount (which no signed 64-bit value
equals); the stored balance wraps to the largest signed 64-bit value. -/
theorem RemoveFromSupply_overflow_counterexample :
    WellFormed [(1, -9223372036854775808)] ∧
    find [(1, -9223372036854775808)] 1 = some (-9223372036854775808) ∧
    ¬ IsInt64 (-9223372036854775808 - ((1 : Nat) : Int)) ∧
    find (RemoveFromSupply [(1, -9223372036854775808)] 1 1) 1 ≠
      some (-9223372036854775808 - ((1 : Nat) : Int)) ∧
    find (RemoveFromSupply [(1, -9223372036854775808)] 1 1) 1 = some 9223372036854775807 := by
  decide

/-- C2, amended: for every ledger, id and amount in the unsigned 32-bit range,
RemoveFromSupply leaves balance(id) = old balance(id) - amount (possibly negative) when id had
an entry and that difference is not below the smallest signed 64-bit value; when id had no
entry it creates one whose balance is exactly -amount, the amount being widened to 64 bits
before it is negated (so the balance is a non-positive signed 64-bit value); every other id
keeps what it had. -/
theorem RemoveFromSupply_balance (resources : Ledger) (resourceID amount : Nat)
    (hwf : WellFormed resources) (hamount : amount < UINT32_RANGE)
    (hfit : ∀ b, find resources resourceID = some b → INT64_MIN ≤ b - (amount : Int)) :
    (∀ b, find resources resourceID = some b →
      find (RemoveFromSupply resources resourceID amount) resourceID =
        some (b - (amount : Int))) ∧
    (find resources resourceID = none →
      find (RemoveFromSupply resources resourceID amount) resourceID = some (-(amount : Int)) ∧
        -(amount : Int) ≤ 0 ∧ IsInt64 (-(amount : Int))) ∧
    (∀ j, j ≠ resourceID →
      find (RemoveFromSupply resources resourceID amount) j = find resources j) := by
  refine ⟨?_, ?_, ?_⟩
  · intro b hb
    have hrange : IsInt64 (b - (amount : Int)) := by
      have h1 := isInt64_of_find hwf hb
      have h2 := hfit b hb
      unfold IsInt64 INT64_MIN INT64_MAX at *
      omega
    simp only [RemoveFromSupply, hb, find_assign_same, Option.map_some',
      wrapInt64_of_isInt64 hrange]
  · intro hnone
    refine ⟨?_, ?_, ?_⟩
    · simp [RemoveFromSupply, hnone, find_emplace]
    · omega
    · unfold UINT32_RANGE at hamount
      unfold IsInt64 INT64_MIN INT64_MAX
      omega
  · intro j hj
    cases hfind : find resources resourceID with
    | some b => simp only [RemoveFromSupply, hfind, find_assign_other _ _ _ _ hj]
    | none =>
      have hne : ¬ resourceID = j := fun h => hj h.symm
      simp only [RemoveFromSupply, hfind, find_emplace, hne, if_false]
      cases find resources j <;> rfl

/-- Witness for C2 (amended): the fresh ledger with RemoveFromSupply(5, 10), which gives
quantity(5) = -10, and the ledger {(7, 42)} with RemoveFromSupply(7, 50). -/
theorem RemoveFromSupply_balance_witness :
    (WellFormed [] ∧ 10 < UINT32_RANGE ∧ find ([] : Ledger) 5 = none ∧
      find (RemoveFromSupply [] 5 10) 5 = some (-((10 : Nat) : Int)) ∧
      (GetResourceQuantity (RemoveFromSupply [] 5 10) 5).1 = -10) ∧
    (WellFormed [(7, 42)] ∧
      find (RemoveFromSupply [(7, 42)] 7 50) 7 = some (42 - ((50 : Nat) : Int))) :=
  ⟨⟨by decide, by decide, by decide,
    ((RemoveFromSupply_balance [] 5 10 (by decide) (by decide) (by decide)).2.1
      (by decide)).1, by decide⟩,
   ⟨by decide,
    (RemoveFromSupply_balance [(7, 42)] 7 50 (by decide) (by decide) (by decide)).1 42
      (by decide)⟩⟩

/-- C3: for every ledger and every id, GetResourceQuantity(id) returns the stored balance of
id when the ledger has an entry for id and 0 when it has none, and the ledger after the call
is the ledger before it (so no entry is created for a never-touched id). -/
theorem GetResourceQuantity_spec (resources : Ledger) (resourceID : Nat)
    (hkeys : (resources.map Prod.fst).Nodup) :
    (∀ b, (resourceID, b) ∈ resources → (GetResourceQuantity resources resourceID).1 = b) ∧
    (resourceID ∉ resources.map Prod.fst → (GetResourceQuantity resources resourceID).1 = 0) ∧
    (GetResourceQuantity resources resourceID).2 = resources := by
  refine ⟨?_, ?_, ?_⟩
  · intro b hb
    have hfind := (find_eq_some_iff_mem hkeys resourceID b).mpr hb
    simp [GetResourceQuantity, hfind]
  · intro hnot
    have hfind := find_eq_none_iff.mpr hnot
    simp [GetResourceQuantity, hfind]
  · unfold GetResourceQuantity
    cases find resources resourceID <;> rfl

/-- Witness for C3: the ledger {(7, 42), (9, -5)} queried for 9 (present) and 3 (absent). -/
theorem GetResourceQuantity_spec_witness :
    ([((7 : Nat), (42 : Int)), (9, -5)].map Prod.fst).Nodup ∧
    (GetResourceQuantity [(7, 42), (9, -5)] 9).1 = -5 ∧
    (GetResourceQuantity [(7, 42), (9, -5)] 3).1 = 0 ∧
    (GetResourceQuantity [(7, 42), (9, -5)] 3).2 = [(7, 42), (9, -5)] :=
  ⟨by decide,
   (GetResourceQuantity_spec [(7, 42), (9, -5)] 9 (by decide)).1 (-5) (by decide),
   (GetResourceQuantity_spec [(7, 42), (9, -5)] 3 (by decide)).2.1 (by decide),
   (GetResourceQuantity_spec [(7, 42), (9, -5)] 3 (by decide)).2.2⟩

/-- C9: inverse operations cancel.  For every ledger, id and amount, after AddToSupply(id, a)
followed by RemoveFromSupply(id, a), GetResourceQuantity(id) equals the value it had before
the two calls, which is 0 when id had no entry. -/
theorem AddToSupply_RemoveFromSupply_cancel (resources : Ledger) (resourceID amount : Nat)
    (hwf : WellFormed resources) :
    (GetResourceQuantity
        (RemoveFromSupply (AddToSupply resources resourceID amount) resourceID amount)
        resourceID).1 = (GetResourceQuantity resources resourceID).1 ∧
    (find resources resourceID = none →
      (GetResourceQuantity
        (RemoveFromSupply (AddToSupply resources resourceID amount) resourceID amount)
        resourceID).1 = 0) := by
  have key : find (RemoveFromSupply (AddToSupply resources resourceID amount) resourceID amount)
      resourceID = some ((find resources resourceID).getD 0) := by
    cases hfind : find resources resourceID with
    | some b =>
      have h1 : find (AddToSupply resources resourceID amount) resourceID =
          some (wrapInt64 (b + (amount : Int))) := by
        simp only [AddToSupply, hfind, find_assign_same, Option.map_some']
      simp only [RemoveFromSupply, h1, find_assign_same, Option.map_some', Option.getD_some,
        wrapInt64_add_sub b amount (isInt64_of_find hwf hfind)]
    | none =>
      have h1 : find (AddToSupply resources resourceID amount) resourceID =
          some (amount : Int) := by
        simp [AddToSupply, hfind, find_emplace]
      simp only [RemoveFromSupply, h1, find_assign_same, Option.map_some', Option.getD_none,
        sub_self]
      rfl
  constructor
  · unfold GetResourceQuantity
    rw [key]
    cases find resources resourceID <;> rfl
  · intro hnone
    unfold GetResourceQuantity
    rw [key, hnone]
    rfl

/-- Witness for C9: the ledger {(7, 42)} with amount 4294967295 on id 7. -/
theorem AddToSupply_RemoveFromSupply_cancel_witness :
    WellFormed [(7, 42)] ∧
    (GetResourceQuantity
        (RemoveFromSupply (AddToSupply [(7, 42)] 7 4294967295) 7 4294967295) 7).1 =
      (GetResourceQuantity [(7, 42)] 7).1 :=
  ⟨by decide, (AddToSupply_RemoveFromSupply_cancel [(7, 42)] 7 4294967295 (by decide)).1⟩

/-- C10: each demand mutator equals its mirrored supply mutator.  AddToDemand(id, amount)
produces exactly the ledger RemoveFromSupply(id, amount) produces, RemoveFromDemand(id, amount)
exactly the ledger AddToSupply(id, amount) produces, and GetResourceQuantity agrees on every
id either way. -/
theorem demand_mutators_mirror_supply (resources : Ledger) (resourceID amount : Nat) :
    AddToDemand resources resourceID amount = RemoveFromSupply resources resourceID amount ∧
    RemoveFromDemand resources resourceID amount = AddToSupply resources resourceID amount ∧
    (∀ j, (GetResourceQuantity (AddToDemand resources resourceID amount) j).1 =
      (GetResourceQuantity (RemoveFromSupply resources resourceID amount) j).1) ∧
    (∀ j, (GetResourceQuantity (RemoveFromDemand resources resourceID amount) j).1 =
      (GetResourceQuantity (AddToSupply resources resourceID amount) j).1) :=
  ⟨rfl, rfl, fun _ => rfl, fun _ => rfl⟩

/-! ## Loading -/

theorem pairFields_length (items : List (Nat × Int)) :
    (pairFields items).length = 2 * items.length := by
  induction items with
  | nil => rfl
  | cons p rest ih => simp only [pairFields, List.length_cons, ih]; omega

theorem loadItems_pairFields (items : List (Nat × Int)) (acc : Ledger) (trailing : List Field) :
    loadItems items.length acc (pairFields items ++ trailing) =
      (true, items.foldl (fun r p => emplace r p.1 p.2) acc) := by
  induction items generalizing acc with
  | nil => rfl
  | cons p rest ih =>
    simp only [List.length_cons, pairFields, List.cons_append, loadItems, GetFieldUint32,
      GetFieldSint64, List.foldl_cons]
    exact ih _

theorem loadItems_true_layout (n : Nat) (acc : Ledger) (body : List Field)
    (h : (loadItems n acc body).1 = true) :
    ∃ pairs trailing, pairs.length = n ∧ body = pairFields pairs ++ trailing := by
  induction n generalizing acc body with
  | zero => exact ⟨[], body, rfl, rfl⟩
  | succ n ih =>
    match body, h with
    | [], h => simp [loadItems, GetFieldUint32] at h
    | Field.sint64 _ :: _, h => simp [loadItems, GetFieldUint32] at h
    | [Field.uint32 _], h => simp [loadItems, GetFieldUint32, GetFieldSint64] at h
    | Field.uint32 _ :: Field.uint32 _ :: _, h =>
      simp [loadItems, GetFieldUint32, GetFieldSint64] at h
    | Field.uint32 k :: Field.sint64 q :: rest, h =>
      simp only [loadItems, GetFieldUint32, GetFieldSint64] at h
      obtain ⟨pairs, trailing, hlen, hrest⟩ := ih _ _ h
      exact ⟨(k, q) :: pairs, trailing, by simp [hlen], by simp [pairFields, hrest]⟩

theorem loadItems_fst_eq_false (n : Nat) (acc : Ledger) (body : List Field)
    (h : ∀ pairs trailing, pairs.length = n → body ≠ pairFields pairs ++ trailing) :
    (loadItems n acc body).1 = false := by
  cases hres : (loadItems n acc body).1 with
  | false => rfl
  | true =>
    obtain ⟨pairs, trailing, hlen, hbody⟩ := loadItems_true_layout n acc body hres
    exact absurd hbody (h pairs trailing hlen)

theorem LoadFromSerialRecord_rejected (resources : Ledger) (record : List Field)
    (hrej : Rejected record) : (LoadFromSerialRecord resources record).1 = false := by
  rcases hrej with h | ⟨v, rest, hrec, hv⟩ | ⟨rest, hrec, hcount⟩ | ⟨n, body, hrec, hbody⟩
  · match record, h with
    | [], _ => rfl
    | Field.sint64 _ :: _, _ => rfl
    | Field.uint32 v :: rest, h => exact absurd rfl (h v rest)
  · subst hrec
    simp [LoadFromSerialRecord, GetFieldUint32, hv]
  · subst hrec
    match rest, hcount with
    | [], _ => rfl
    | Field.sint64 _ :: _, _ => rfl
    | Field.uint32 n :: body, h => exact absurd rfl (h n body)
  · subst hrec
    simp only [LoadFromSerialRecord, GetFieldUint32, ne_eq, not_true_eq_false, if_false]
    exact loadItems_fst_eq_false n resources body hbody

theorem LoadFromSerialRecord_layout (resources : Ledger) (pairs : List (Nat × Int))
    (trailing : List Field) :
    LoadFromSerialRecord resources (recordLayout pairs ++ trailing) =
      (true, pairs.foldl (fun r p => emplace r p.1 p.2) resources) := by
  simp only [recordLayout, List.cons_append, LoadFromSerialRecord, GetFieldUint32, ne_eq,
    not_true_eq_false, if_false]
  exact loadItems_pairFields pairs resources trailing

theorem rejected_iff_not_layout (record : List Field) :
    Rejected record ↔ ¬ ∃ pairs trailing, record = recordLayout pairs ++ trailing := by
  constructor
  · rintro hrej ⟨pairs, trailing, hrec⟩
    have h1 := LoadFromSerialRecord_rejected [] record hrej
    rw [hrec, LoadFromSerialRecord_layout] at h1
    exact Bool.noConfusion h1
  · intro hno
    match record, hno with
    | [], _ => exact Or.inl (fun v rest h => List.noConfusion h)
    | Field.sint64 _ :: _, _ =>
      exact Or.inl (fun v rest h => Field.noConfusion (List.cons.inj h).1)
    | Field.uint32 v :: rest, hno =>
      by_cases hv : v = 1
      · subst hv
        match rest, hno with
        | [], _ => exact Or.inr (Or.inr (Or.inl ⟨[], rfl, fun n body h => List.noConfusion h⟩))
        | Field.sint64 q :: more, _ =>
          exact Or.inr (Or.inr (Or.inl ⟨Field.sint64 q :: more, rfl,
            fun n body h => Field.noConfusion (List.cons.inj h).1⟩))
        | Field.uint32 n :: body, hno =>
          refine Or.inr (Or.inr (Or.inr ⟨n, body, rfl, ?_⟩))
          intro pairs trailing hlen hbody
          apply hno
          refine ⟨pairs, trailing, ?_⟩
          simp [recordLayout, hlen, hbody]
      · exact Or.inr (Or.inl ⟨v, rest, rfl, hv⟩)

theorem rejected_of_count_exceeds (n : Nat) (body : List Field) (h : body.length < 2 * n) :
    Rejected (Field.uint32 1 :: Field.uint32 n :: body) := by
  refine Or.inr (Or.inr (Or.inr ⟨n, body, rfl, ?_⟩))
  intro pairs trailing hlen hbody
  have hl := congrArg List.length hbody
  rw [List.length_append, pairFields_length, hlen] at hl
  omega

theorem find_eq_lookup (l : Ledger) (j : Nat) : find l j = l.lookup j := by
  induction l with
  | nil => rfl
  | cons p rest ih =>
    obtain ⟨k, v⟩ := p
    rw [find_cons, List.lookup_cons]
    by_cases hk : k = j
    · subst hk
      simp
    · have hjk : (j == k) = false := by
        simp only [beq_eq_false_iff_ne, ne_eq]
        exact fun h => hk h.symm
      simp only [hk, if_false, hjk, ih]

theorem find_foldl_emplace (items : List (Nat × Int)) (acc : Ledger) (j : Nat) :
    find (items.foldl (fun r p => emplace r p.1 p.2) acc) j =
      (find acc j).orElse (fun _ => find items j) := by
  induction items generalizing acc with
  | nil =>
    simp only [List.foldl_nil, find_nil]
    cases hf : find acc j <;> rfl
  | cons p rest ih =>
    obtain ⟨k, v⟩ := p
    rw [List.foldl_cons, ih, find_emplace, find_cons]
    cases find acc j with
    | some b => rfl
    | none =>
      by_cases hk : k = j
      · simp [hk]
      · simp [hk]

theorem emplace_keys_nodup (l : Ledger) (i : Nat) (q : Int) (h : (l.map Prod.fst).Nodup) :
    ((emplace l i q).map Prod.fst).Nodup := by
  unfold emplace
  cases hfind : find l i with
  | some b => exact h
  | none =>
    have hnot := find_eq_none_iff.mp hfind
    simp only [List.map_append, List.map_cons, List.map_nil]
    refine List.Nodup.append h (List.nodup_singleton i) ?_
    intro a ha hb
    rw [List.mem_singleton] at hb
    exact hnot (hb ▸ ha)

theorem foldl_emplace_keys_nodup (items : List (Nat × Int)) (acc : Ledger)
    (h : (acc.map Prod.fst).Nodup) :
    ((items.foldl (fun r p => emplace r p.1 p.2) acc).map Prod.fst).Nodup := by
  induction items generalizing acc with
  | nil => exact h
  | cons p rest ih => exact ih _ (emplace_keys_nodup acc p.1 p.2 h)

theorem Load_layout (prior : Ledger) (pairs : List (Nat × Int)) (trailing : List Field) :
    Load prior ⟨some (recordLayout pairs ++ trailing), true⟩ =
      pairs.foldl (fun r p => emplace r p.1 p.2) [] := by
  simp only [Load, if_true, LoadFromSerialRecord_layout]

/-- C5: Load fails closed.  For every prior ledger content and every rejected record (version
field absent or not exactly 1, or a later field read failing), LoadFromSerialRecord returns
false, whatever ledger it is populating, and after Load the ledger is empty. -/
theorem Load_fails_closed (prior : Ledger) (record : List Field) (serial : Bool)
    (hrej : Rejected record) :
    (LoadFromSerialRecord prior record).1 = false ∧
    (LoadFromSerialRecord [] record).1 = false ∧
    Load prior ⟨some record, serial⟩ = [] := by
  have h0 := LoadFromSerialRecord_rejected [] record hrej
  refine ⟨LoadFromSerialRecord_rejected prior record hrej, h0, ?_⟩
  unfold Load
  cases serial with
  | false => rfl
  | true =>
    simp only [if_true]
    cases hres : LoadFromSerialRecord [] record with
    | mk ok loaded =>
      rw [hres] at h0
      simp only at h0
      subst h0
      rfl

/-- Witness for C5: with the prior ledger {(5, 5)}, the empty record (no version field), a
record of version 2, and a version-1 record that declares 3 items but holds one pair. -/
theorem Load_fails_closed_witness :
    (Rejected [] ∧ Load [(5, 5)] ⟨some [], true⟩ = []) ∧
    (Rejected [Field.uint32 2, Field.uint32 0] ∧
      (LoadFromSerialRecord [] [Field.uint32 2, Field.uint32 0]).1 = false ∧
      Load [(5, 5)] ⟨some [Field.uint32 2, Field.uint32 0], true⟩ = []) ∧
    (Rejected [Field.uint32 1, Field.uint32 3, Field.uint32 7, Field.sint64 42] ∧
      (LoadFromSerialRecord []
        [Field.uint32 1, Field.uint32 3, Field.uint32 7, Field.sint64 42]).1 = false ∧
      Load [(5, 5)]
        ⟨some [Field.uint32 1, Field.uint32 3, Field.uint32 7, Field.sint64 42], true⟩ = []) :=
  ⟨⟨Or.inl (fun _ _ h => List.noConfusion h),
    (Load_fails_closed [(5, 5)] [] true (Or.inl (fun _ _ h => List.noConfusion h))).2.2⟩,
   ⟨Or.inr (Or.inl ⟨2, [Field.uint32 0], rfl, by decide⟩),
    (Load_fails_closed [(5, 5)] [Field.uint32 2, Field.uint32 0] true
      (Or.inr (Or.inl ⟨2, [Field.uint32 0], rfl, by decide⟩))).2⟩,
   ⟨rejected_of_count_exceeds 3 [Field.uint32 7, Field.sint64 42] (by decide),
    (Load_fails_closed [(5, 5)]
      [Field.uint32 1, Field.uint32 3, Field.uint32 7, Field.sint64 42] true
      (rejected_of_count_exceeds 3 [Field.uint32 7, Field.sint64 42] (by decide))).2⟩⟩

/-- C6: Load replaces, it does not merge.  For every prior ledger content and every
well-formed record (version 1, item count n, then n (id, quantity) pairs, whatever follows
them), the ledger after Load has an entry (id, q) exactly when the record lists id and q is
the quantity of the first pair listing id; its keys are unique; GetResourceQuantity returns
that quantity, or 0 for an id the record does not list; and the result is the same for every
prior ledger, so no entry or balance of the prior ledger survives. -/
theorem Load_replaces (prior : Ledger) (pairs : List (Nat × Int)) (trailing : List Field) :
    (∀ j b, (j, b) ∈ Load prior ⟨some (recordLayout pairs ++ trailing), true⟩ ↔
      pairs.lookup j = some b) ∧
    (∀ j, j ∈ (Load prior ⟨some (recordLayout pairs ++ trailing), true⟩).map Prod.fst ↔
      j ∈ pairs.map Prod.fst) ∧
    ((Load prior ⟨some (recordLayout pairs ++ trailing), true⟩).map Prod.fst).Nodup ∧
    (∀ j, (GetResourceQuantity (Load prior ⟨some (recordLayout pairs ++ trailing), true⟩) j).1 =
      (pairs.lookup j).getD 0) ∧
    (∀ other, Load other ⟨some (recordLayout pairs ++ trailing), true⟩ =
      Load prior ⟨some (recordLayout pairs ++ trailing), true⟩) := by
  have hnd : ((pairs.foldl (fun r p => emplace r p.1 p.2) ([] : Ledger)).map Prod.fst).Nodup :=
    foldl_emplace_keys_nodup pairs [] List.nodup_nil
  have hfind : ∀ j, find (pairs.foldl (fun r p => emplace r p.1 p.2) ([] : Ledger)) j =
      pairs.lookup j := by
    intro j
    rw [find_foldl_emplace, find_nil, ← find_eq_lookup]
    rfl
  rw [Load_layout]
  refine ⟨?_, ?_, hnd, ?_, ?_⟩
  · intro j b
    rw [← find_eq_some_iff_mem hnd, hfind]
  · intro j
    have h1 := @find_eq_none_iff (pairs.foldl (fun r p => emplace r p.1 p.2) ([] : Ledger)) j
    have h2 := @find_eq_none_iff pairs j
    rw [hfind, ← find_eq_lookup] at h1
    constructor
    · intro hj
      by_contra hcon
      exact (h1.mp (h2.mpr hcon)) hj
    · intro hj
      by_contra hcon
      exact (h2.mp (h1.mpr hcon)) hj
  · intro j
    unfold GetResourceQuantity
    rw [hfind]
    cases pairs.lookup j <;> rfl
  · intro other
    rw [Load_layout]

/-! ## Saving -/

theorem saveItems_eq_writeFields (accept : List Field → Field → Bool) (items : Ledger)
    (record : WriteRecord) :
    saveItems accept items record = writeFields accept (pairFields items) record := by
  induction items generalizing record with
  | nil => rfl
  | cons p rest ih =>
    simp only [saveItems, pairFields, writeFields, SetFieldUint32, SetFieldSint64]
    cases h1 : SetField accept record (Field.uint32 p.1) with
    | mk ok1 record1 =>
      cases ok1 with
      | false => rfl
      | true =>
        simp only
        cases h2 : SetField accept record1 (Field.sint64 p.2) with
        | mk ok2 record2 =>
          cases ok2 with
          | false => rfl
          | true => exact ih record2

theorem SaveToSerialRecord_eq_writeFields (accept : List Field → Field → Bool)
    (resources : Ledger) (record : WriteRecord) (hcount : resources.length < UINT32_RANGE) :
    SaveToSerialRecord accept resources record =
      writeFields accept (recordLayout resources) record := by
  simp only [SaveToSerialRecord, recordLayout, writeFields, SetFieldUint32,
    Nat.mod_eq_of_lt hcount]
  cases h1 : SetField accept record (Field.uint32 1) with
  | mk ok1 record1 =>
    cases ok1 with
    | false => rfl
    | true =>
      simp only
      cases h2 : SetField accept record1 (Field.uint32 resources.length) with
      | mk ok2 record2 =>
        cases ok2 with
        | false => rfl
        | true => exact saveItems_eq_writeFields accept resources record2

theorem writeFields_all_accepted (accept : List Field → Field → Bool) (fs : List Field)
    (record : WriteRecord)
    (hall : ∀ i f, fs[i]? = some f → accept (record.fields ++ fs.take i) f = true) :
    writeFields accept fs record = (true, ⟨record.fields ++ fs, record.issued ++ fs⟩) := by
  induction fs generalizing record with
  | nil => simp [writeFields]
  | cons f rest ih =>
    have h0 : accept record.fields f = true := by
      have := hall 0 f (List.getElem?_cons_zero ..)
      simpa using this
    simp only [writeFields, SetField, h0, if_true]
    rw [ih]
    · simp
    · intro i g hg
      have := hall (i + 1) g (by simpa using hg)
      simpa using this

theorem writeFields_first_rejected (accept : List Field → Field → Bool) (fs : List Field)
    (record : WriteRecord) (k : Nat) (f : Field) (hk : fs[k]? = some f)
    (hbefore : ∀ i g, i < k → fs[i]? = some g → accept (record.fields ++ fs.take i) g = true)
    (hrej : accept (record.fields ++ fs.take k) f = false) :
    writeFields accept fs record =
      (false, ⟨record.fields ++ fs.take k, record.issued ++ fs.take (k + 1)⟩) := by
  induction fs generalizing record k with
  | nil => simp at hk
  | cons g rest ih =>
    cases k with
    | zero =>
      simp only [List.getElem?_cons_zero, Option.some.injEq] at hk
      subst hk
      simp only [List.take_zero, List.append_nil] at hrej
      simp [writeFields, SetField, hrej]
    | succ k =>
      have h0 : accept record.fields g = true := by
        have := hbefore 0 g (Nat.succ_pos k) (List.getElem?_cons_zero ..)
        simpa using this
      simp only [writeFields, SetField, h0, if_true]
      rw [ih ⟨record.fields ++ [g], record.issued ++ [g]⟩ k (by simpa using hk)]
      · simp
      · intro i g2 hi hg
        have := hbefore (i + 1) g2 (Nat.succ_lt_succ hi) (by simpa using hg)
        simpa using this
      · simpa using hrej

theorem writeFields_true_accepted (accept : List Field → Field → Bool) (fs : List Field)
    (record : WriteRecord) (h : (writeFields accept fs record).1 = true) :
    ∀ i f, fs[i]? = some f → accept (record.fields ++ fs.take i) f = true := by
  induction fs generalizing record with
  | nil => intro i f hf; simp at hf
  | cons g rest ih =>
    have h0 : accept record.fields g = true := by
      by_contra hcon
      simp [writeFields, SetField, hcon] at h
    simp only [writeFields, SetField, h0, if_true] at h
    intro i f hf
    cases i with
    | zero =>
      simp only [List.getElem?_cons_zero, Option.some.injEq] at hf
      subst hf
      simpa using h0
    | succ i =>
      have := ih _ h i f (by simpa using hf)
      simpa using this

theorem recordLayout_length (items : List (Nat × Int)) :
    (recordLayout items).length = 2 + 2 * items.length := by
  simp only [recordLayout, List.length_cons, pairFields_length]
  omega

theorem find_perm {order resources : Ledger} (hperm : order.Perm resources)
    (hkeys : (resources.map Prod.fst).Nodup) (j : Nat) : find order j = find resources j := by
  have hkeys2 : (order.map Prod.fst).Nodup := ((hperm.map Prod.fst).nodup_iff).mpr hkeys
  apply Option.ext
  intro b
  simp only [Option.mem_def]
  rw [find_eq_some_iff_mem hkeys2, find_eq_some_iff_mem hkeys]
  exact hperm.mem_iff

/-- C7: for every ledger with n entries (n fitting in 32 bits) and every record, starting
empty, SaveToSerialRecord issues its writes in the order of the layout uint32 1, uint32 n,
then uint32 id, int64 quantity for each entry once (2 + 2n fields); it returns true exactly
when the record accepts every one of these writes, and the record then holds exactly the
layout; at the first write the record rejects it stops and returns false, the record
holding the fields before that write, that write being the last one issued. -/
theorem SaveToSerialRecord_writes (accept : List Field → Field → Bool) (resources : Ledger)
    (hcount : resources.length < UINT32_RANGE) :
    (recordLayout resources).length = 2 + 2 * resources.length ∧
    ((SaveToSerialRecord accept resources ⟨[], []⟩).1 = true ↔
      ∀ i f, (recordLayout resources)[i]? = some f →
        accept ((recordLayout resources).take i) f = true) ∧
    ((SaveToSerialRecord accept resources ⟨[], []⟩).1 = true →
      (SaveToSerialRecord accept resources ⟨[], []⟩).2 =
        ⟨recordLayout resources, recordLayout resources⟩) ∧
    (∀ k f, (recordLayout resources)[k]? = some f →
      (∀ i g, i < k → (recordLayout resources)[i]? = some g →
        accept ((recordLayout resources).take i) g = true) →
      accept ((recordLayout resources).take k) f = false →
      SaveToSerialRecord accept resources ⟨[], []⟩ =
        (false, ⟨(recordLayout resources).take k, (recordLayout resources).take (k + 1)⟩)) := by
  rw [SaveToSerialRecord_eq_writeFields accept resources _ hcount]
  have hsucc : (∀ i f, (recordLayout resources)[i]? = some f →
      accept ((recordLayout resources).take i) f = true) →
      writeFields accept (recordLayout resources) ⟨[], []⟩ =
        (true, ⟨recordLayout resources, recordLayout resources⟩) := by
    intro hall
    have := writeFields_all_accepted accept (recordLayout resources) ⟨[], []⟩
      (by simpa using hall)
    simpa using this
  have hacc : (writeFields accept (recordLayout resources) ⟨[], []⟩).1 = true →
      ∀ i f, (recordLayout resources)[i]? = some f →
        accept ((recordLayout resources).take i) f = true := by
    intro h
    have := writeFields_true_accepted accept (recordLayout resources) ⟨[], []⟩ h
    simpa using this
  refine ⟨recordLayout_length resources, ⟨hacc, fun hall => by rw [hsucc hall]⟩, ?_, ?_⟩
  · intro h
    rw [hsucc (hacc h)]
  · intro k f hk hbefore hrej
    have := writeFields_first_rejected accept (recordLayout resources) ⟨[], []⟩ k f hk
      (by simpa using hbefore) (by simpa using hrej)
    simpa using this

/-- Witness for C7: the ledger {(7, 42), (9, -5)} saved to a record that accepts every
write, and to a record that rejects every write. -/
theorem SaveToSerialRecord_writes_witness :
    (([((7 : Nat), (42 : Int)), (9, -5)] : Ledger).length < UINT32_RANGE ∧
      (SaveToSerialRecord (fun _ _ => true) [(7, 42), (9, -5)] ⟨[], []⟩).1 = true) ∧
    SaveToSerialRecord (fun _ _ => false) [(7, 42), (9, -5)] ⟨[], []⟩ =
      (false, ⟨(recordLayout [(7, 42), (9, -5)]).take 0,
        (recordLayout [(7, 42), (9, -5)]).take (0 + 1)⟩) :=
  ⟨⟨by decide,
    (SaveToSerialRecord_writes (fun _ _ => true) [(7, 42), (9, -5)] (by decide)).2.1.mpr
      (fun _ _ _ => rfl)⟩,
   (SaveToSerialRecord_writes (fun _ _ => false) [(7, 42), (9, -5)] (by decide)).2.2.2
      0 (Field.uint32 1) rfl (fun i _ hi _ => absurd hi (Nat.not_lt_zero i)) rfl⟩

/-- C4: round trip.  For every ledger whose entry count fits in 32 bits, saved in any
iteration order of its entries to a record that accepts every field write and loaded back
into a fresh ledger: the save and the load return true, and the loaded ledger has exactly the
entries (id, balance) of the original, with unique keys, so GetResourceQuantity agrees on
every id. -/
theorem save_load_round_trip (resources order : Ledger) (hperm : order.Perm resources)
    (hkeys : (resources.map Prod.fst).Nodup) (hcount : resources.length < UINT32_RANGE) :
    (SaveToSerialRecord (fun _ _ => true) order ⟨[], []⟩).1 = true ∧
    (saveThenLoad order).1 = true ∧
    (∀ j b, (j, b) ∈ (saveThenLoad order).2 ↔ (j, b) ∈ resources) ∧
    (((saveThenLoad order).2).map Prod.fst).Nodup ∧
    (∀ j, (GetResourceQuantity (saveThenLoad order).2 j).1 =
      (GetResourceQuantity resources j).1) := by
  have hcount2 : order.length < UINT32_RANGE := by rw [hperm.length_eq]; exact hcount
  have hsave : SaveToSerialRecord (fun _ _ => true) order ⟨[], []⟩ =
      (true, ⟨recordLayout order, recordLayout order⟩) := by
    rw [SaveToSerialRecord_eq_writeFields _ order _ hcount2]
    have := writeFields_all_accepted (fun _ _ => true) (recordLayout order) ⟨[], []⟩
      (fun _ _ _ => rfl)
    simpa using this
  have hload : saveThenLoad order =
      (true, order.foldl (fun r p => emplace r p.1 p.2) []) := by
    unfold saveThenLoad
    rw [hsave]
    have := LoadFromSerialRecord_layout [] order []
    simpa using this
  have hnd : ((order.foldl (fun r p => emplace r p.1 p.2) ([] : Ledger)).map Prod.fst).Nodup :=
    foldl_emplace_keys_nodup order [] List.nodup_nil
  have hfind : ∀ j, find (order.foldl (fun r p => emplace r p.1 p.2) ([] : Ledger)) j =
      find resources j := by
    intro j
    rw [find_foldl_emplace, find_nil, ← find_perm hperm hkeys j]
    rfl
  rw [hsave, hload]
  refine ⟨rfl, rfl, ?_, hnd, ?_⟩
  · intro j b
    rw [← find_eq_some_iff_mem hnd, hfind, find_eq_some_iff_mem hkeys]
  · intro j
    unfold GetResourceQuantity
    rw [hfind]
    cases find resources j <;> rfl

/-- Witness for C4: the ledger {(7, 42), (9, -5)}, saved in the iteration order (9, -5),
(7, 42), reloads with quantity(7) = 42 and quantity(9) = -5. -/
theorem save_load_round_trip_witness :
    (List.Perm [((9 : Nat), (-5 : Int)), (7, 42)] [(7, 42), (9, -5)] ∧
      ([((7 : Nat), (42 : Int)), (9, -5)].map Prod.fst).Nodup ∧
      ([((7 : Nat), (42 : Int)), (9, -5)] : Ledger).length < UINT32_RANGE) ∧
    (saveThenLoad [(9, -5), (7, 42)]).1 = true ∧
    (GetResourceQuantity (saveThenLoad [(9, -5), (7, 42)]).2 7).1 =
      (GetResourceQuantity [(7, 42), (9, -5)] 7).1 ∧
    (GetResourceQuantity [(7, 42), (9, -5)] 7).1 = 42 ∧
    (GetResourceQuantity (saveThenLoad [(9, -5), (7, 42)]).2 9).1 =
      (GetResourceQuantity [(7, 42), (9, -5)] 9).1 ∧
    (GetResourceQuantity [(7, 42), (9, -5)] 9).1 = -5 :=
  ⟨⟨List.Perm.swap (7, 42) (9, -5) [], by decide, by decide⟩,
   (save_load_round_trip [(7, 42), (9, -5)] [(9, -5), (7, 42)]
      (List.Perm.swap (7, 42) (9, -5) []) (by decide) (by decide)).2.1,
   (save_load_round_trip [(7, 42), (9, -5)] [(9, -5), (7, 42)]
      (List.Perm.swap (7, 42) (9, -5) []) (by decide) (by decide)).2.2.2.2 7,
   by decide,
   (save_load_round_trip [(7, 42), (9, -5)] [(9, -5), (7, 42)]
      (List.Perm.swap (7, 42) (9, -5) []) (by decide) (by decide)).2.2.2.2 9,
   by decide⟩

/-! ## The scripting bridge -/

/-- C8, the code at the failing input: the range check of TryGetNumberAsUint32 tests the
`uint32_t` output parameter instead of the number read, so it never rejects.  Every number
argument is accepted, 4294967296 included, with whatever value the narrowing conversion
yields; and add_to_demand(1, 4294967296) on the empty ledger creates an entry for id 1
instead of leaving the ledger unchanged.  In-range numbers such as 4294967295 are accepted
with their own value. -/
theorem TryGetNumberAsUint32_never_rejects (outOfRange : Int → Nat) (number : Int) :
    (TryGetNumberAsUint32 outOfRange [LuaValue.number number] (-1) 0).1 = true ∧
    TryGetNumberAsUint32 outOfRange [LuaValue.number 4294967296] (-1) 0 =
      (true, outOfRange 4294967296 % UINT32_RANGE) ∧
    TryGetNumberAsUint32 outOfRange [LuaValue.number 4294967295] (-1) 0 =
      (true, 4294967295) ∧
    (luaAddToDemand outOfRange [] [LuaValue.number 1, LuaValue.number 4294967296]).1 =
      [(1, -((outOfRange 4294967296 % UINT32_RANGE : Nat) : Int))] ∧
    (luaAddToDemand outOfRange [] [LuaValue.number 1, LuaValue.number 4294967296]).1 ≠ [] := by
  have hstack1 : ∀ x : Int, stackAt [LuaValue.number x] (-1) = LuaValue.number x := fun _ => rfl
  have hbig : castUint32 outOfRange 4294967296 = outOfRange 4294967296 % UINT32_RANGE := by
    simp [castUint32]
  have htry : ∀ x : Int, TryGetNumberAsUint32 outOfRange [LuaValue.number x] (-1) 0 =
      (true, castUint32 outOfRange x) := by
    intro x
    simp [TryGetNumberAsUint32, hstack1]
  have hdemand : (luaAddToDemand outOfRange [] [LuaValue.number 1, LuaValue.number 4294967296]).1 =
      [(1, -((outOfRange 4294967296 % UINT32_RANGE : Nat) : Int))] := by
    have h1 : stackAt [LuaValue.number 1, LuaValue.number 4294967296] (-1) =
        LuaValue.number 4294967296 := rfl
    have h2 : stackAt [LuaValue.number 1, LuaValue.number 4294967296] (-2) =
        LuaValue.number 1 := rfl
    have h3 : castUint32 outOfRange 1 = 1 := by simp [castUint32]
    simp [luaAddToDemand, TryGetNumberAsUint32, h1, h2, h3, hbig, AddToDemand,
      RemoveFromSupply, find, emplace]
  refine ⟨by rw [htry], by rw [htry, hbig], ?_, hdemand, ?_⟩
  · rw [htry]
    simp [castUint32]
  · rw [hdemand]
    exact List.cons_ne_nil _ _

/-- C11: invalid argument counts are ignored by the scripting bridge.  A call of
add_to_demand, remove_from_demand, add_to_supply or remove_from_supply whose argument count
is not 2 leaves the ledger as it is and returns no results; get_resource_quantity called with
an argument count other than 1 pushes 0 as its one result without querying the manager, the
ledger being left as it is. -/
theorem lua_invalid_argument_count_ignored (outOfRange : Int → Nat) (resources : Ledger)
    (mutatorStack queryStack : List LuaValue)
    (hmutator : mutatorStack.length ≠ 2) (hquery : queryStack.length ≠ 1) :
    luaAddToDemand outOfRange resources mutatorStack = (resources, 0) ∧
    luaRemoveFromDemand outOfRange resources mutatorStack = (resources, 0) ∧
    luaAddToSupply outOfRange resources mutatorStack = (resources, 0) ∧
    luaRemoveFromSupply outOfRange resources mutatorStack = (resources, 0) ∧
    luaGetResourceQuantity outOfRange resources queryStack = ⟨resources, 0, 1, false⟩ := by
  refine ⟨?_, ?_, ?_, ?_, ?_⟩
  · simp only [luaAddToDemand, hmutator, if_false]
  · simp only [luaRemoveFromDemand, hmutator, if_false]
  · simp only [luaAddToSupply, hmutator, if_false]
  · simp only [luaRemoveFromSupply, hmutator, if_false]
  · simp only [luaGetResourceQuantity, hquery, if_false]

/-- Witness for C11: the ledger {(1, 50)}, a mutator called with the three arguments
1, 2, 3 and the query called with the two arguments 1, 2. -/
theorem lua_invalid_argument_count_ignored_witness :
    ([LuaValue.number 1, LuaValue.number 2, LuaValue.number 3].length ≠ 2 ∧
      [LuaValue.number 1, LuaValue.number 2].length ≠ 1) ∧
    luaAddToSupply (fun _ => 0) [(1, 50)]
      [LuaValue.number 1, LuaValue.number 2, LuaValue.number 3] = ([(1, 50)], 0) ∧
    luaGetResourceQuantity (fun _ => 0) [(1, 50)] [LuaValue.number 1, LuaValue.number 2] =
      ⟨[(1, 50)], 0, 1, false⟩ :=
  ⟨⟨by decide, by decide⟩,
   (lua_invalid_argument_count_ignored (fun _ => 0) [(1, 50)]
      [LuaValue.number 1, LuaValue.number 2, LuaValue.number 3]
      [LuaValue.number 1, LuaValue.number 2] (by decide) (by decide)).2.2.1,
   (lua_invalid_argument_count_ignored (fun _ => 0) [(1, 50)]
      [LuaValue.number 1, LuaValue.number 2, LuaValue.number 3]
      [LuaValue.number 1, LuaValue.number 2] (by decide) (by decide)).2.2.2.2⟩

/-! ## Partial loads -/

theorem loadItems_truncated (pairs : List (Nat × Int)) (extra : Nat) (acc : Ledger)
    (rest : List Field)
    (hrest : ∀ k q more, rest ≠ Field.uint32 k :: Field.sint64 q :: more) :
    loadItems (pairs.length + (extra + 1)) acc (pairFields pairs ++ rest) =
      (false, pairs.foldl (fun r p => emplace r p.1 p.2) acc) := by
  induction pairs generalizing acc with
  | nil =>
    simp only [List.length_nil, Nat.zero_add, pairFields, List.nil_append, List.foldl_nil]
    match rest, hrest with
    | [], _ => rfl
    | Field.sint64 _ :: _, _ => rfl
    | [Field.uint32 _], _ => rfl
    | Field.uint32 _ :: Field.uint32 _ :: _, _ => rfl
    | Field.uint32 k :: Field.sint64 q :: more, h => exact absurd rfl (h k q more)
  | cons p tail ih =>
    have hlen : (p :: tail).length + (extra + 1) = (tail.length + (extra + 1)) + 1 := by
      simp only [List.length_cons]
      omega
    rw [hlen]
    simp only [pairFields, List.cons_append, loadItems, GetFieldUint32, GetFieldSint64,
      List.foldl_cons]
    exact ih _

/-- C13: LoadFromSerialRecord is not atomic.  For every version-1 record whose declared item
count is larger than the number of complete pairs that can be read, LoadFromSerialRecord
returns false and the ledger it was populating holds the pairs read before the failure
(from an empty ledger and at least one complete pair: a non-empty ledger); nothing is rolled
back by the operation itself, and the enclosing Load leaves the ledger empty. -/
theorem LoadFromSerialRecord_not_atomic (prior : Ledger) (pairs : List (Nat × Int))
    (itemCount : Nat) (rest : List Field)
    (hcount : pairs.length < itemCount) (hpairs : pairs ≠ [])
    (hrest : ∀ k q more, rest ≠ Field.uint32 k :: Field.sint64 q :: more) :
    LoadFromSerialRecord []
        (Field.uint32 1 :: Field.uint32 itemCount :: (pairFields pairs ++ rest)) =
      (false, pairs.foldl (fun r p => emplace r p.1 p.2) []) ∧
    (LoadFromSerialRecord []
        (Field.uint32 1 :: Field.uint32 itemCount :: (pairFields pairs ++ rest))).2 ≠ [] ∧
    (∀ p, pairs.head? = some p →
      find (LoadFromSerialRecord []
        (Field.uint32 1 :: Field.uint32 itemCount :: (pairFields pairs ++ rest))).2 p.1 =
        some p.2) ∧
    Load prior
      ⟨some (Field.uint32 1 :: Field.uint32 itemCount :: (pairFields pairs ++ rest)), true⟩ =
      [] := by
  obtain ⟨extra, hextra⟩ : ∃ extra, itemCount = pairs.length + (extra + 1) :=
    ⟨itemCount - pairs.length - 1, by omega⟩
  have hload : LoadFromSerialRecord []
      (Field.uint32 1 :: Field.uint32 itemCount :: (pairFields pairs ++ rest)) =
      (false, pairs.foldl (fun r p => emplace r p.1 p.2) []) := by
    simp only [LoadFromSerialRecord, GetFieldUint32, ne_eq, not_true_eq_false, if_false]
    rw [hextra]
    exact loadItems_truncated pairs extra [] rest hrest
  have hfirst : ∀ p, pairs.head? = some p →
      find (pairs.foldl (fun r p => emplace r p.1 p.2) ([] : Ledger)) p.1 = some p.2 := by
    intro p hp
    match pairs, hp with
    | q :: tail, hp =>
      simp only [List.head?_cons, Option.some.injEq] at hp
      subst hp
      rw [find_foldl_emplace, find_nil, find_cons]
      simp
  refine ⟨hload, ?_, ?_, ?_⟩
  · rw [hload]
    intro hnil
    match pairs, hpairs, hfirst, hnil with
    | q :: tail, _, hfirst, hnil =>
      have := hfirst q rfl
      simp only at hnil
      rw [hnil, find_nil] at this
      exact Option.noConfusion this
  · rw [hload]
    exact hfirst
  · simp only [Load, if_true, hload]

/-- Witness for C13: the record [1, 3, (7, 42)], which declares 3 items and holds one pair;
LoadFromSerialRecord returns false with the ledger {(7, 42)}, Load leaves the ledger empty. -/
theorem LoadFromSerialRecord_not_atomic_witness :
    ([((7 : Nat), (42 : Int))].length < 3 ∧ [((7 : Nat), (42 : Int))] ≠ []) ∧
    LoadFromSerialRecord []
        (Field.uint32 1 :: Field.uint32 3 :: (pairFields [(7, 42)] ++ [])) =
      (false, [(7, 42)]) ∧
    Load [(5, 5)]
      ⟨some (Field.uint32 1 :: Field.uint32 3 :: (pairFields [(7, 42)] ++ [])), true⟩ = [] :=
  ⟨⟨by decide, by decide⟩,
   (LoadFromSerialRecord_not_atomic [(5, 5)] [(7, 42)] 3 [] (by decide) (by decide)
      (fun _ _ _ h => List.noConfusion h)).1,
   (LoadFromSerialRecord_not_atomic [(5, 5)] [(7, 42)] 3 [] (by decide) (by decide)
      (fun _ _ _ h => List.noConfusion h)).2.2.2⟩

/-! ## Save -/

/-- C16: saving an empty ledger writes nothing.  With no entries Save leaves the segment as
it is: no record is opened, written, committed or aborted and the persisted record stays.
With at least one entry and a record that opens as a serial record, Save opens it and then
commits it (the persisted record becomes the fields written) exactly when SaveToSerialRecord
returned true, and aborts it (the persisted record stays) otherwise.  When OpenRecord fails
or the record does not hand out the serial-record interface, nothing is written, committed or
aborted. -/
theorem Save_commits_or_aborts (accept : List Field → Field → Bool) (resources : Ledger)
    (pSegment : SaveSegment) :
    (resources = [] → Save accept resources pSegment = pSegment) ∧
    (resources ≠ [] → pSegment.opens = true → pSegment.serial = true →
      ((SaveToSerialRecord accept resources ⟨[], []⟩).1 = true →
        Save accept resources pSegment =
          ⟨some (SaveToSerialRecord accept resources ⟨[], []⟩).2.fields, true, true,
            pSegment.calls ++ [SegmentCall.openRecord, SegmentCall.closeRecord]⟩) ∧
      ((SaveToSerialRecord accept resources ⟨[], []⟩).1 = false →
        Save accept resources pSegment =
          ⟨pSegment.persisted, true, true,
            pSegment.calls ++ [SegmentCall.openRecord, SegmentCall.abortRecord]⟩)) ∧
    (resources ≠ [] → (pSegment.opens = false ∨ pSegment.serial = false) →
      Save accept resources pSegment =
        ⟨pSegment.persisted, pSegment.opens, pSegment.serial,
          pSegment.calls ++ [SegmentCall.openRecord]⟩) := by
  refine ⟨?_, ?_, ?_⟩
  · intro hempty
    subst hempty
    rfl
  rotate_left
  · intro hne hclosed
    have hnonempty : resources.isEmpty = false := by
      cases resources with
      | nil => exact absurd rfl hne
      | cons _ _ => rfl
    cases hopens : pSegment.opens with
    | false => simp [Save, OpenRecord, hnonempty, hopens]
    | true =>
      have hserial : pSegment.serial = false := by
        rcases hclosed with h | h
        · rw [hopens] at h
          exact Bool.noConfusion h
        · exact h
      simp [Save, OpenRecord, hnonempty, hopens, hserial]
  · intro hne hopens hserial
    have hnonempty : resources.isEmpty = false := by
      cases resources with
      | nil => exact absurd rfl hne
      | cons _ _ => rfl
    constructor
    · intro hok
      cases hres : SaveToSerialRecord accept resources ⟨[], []⟩ with
      | mk ok record =>
        rw [hres] at hok
        simp only at hok
        subst hok
        simp [Save, OpenRecord, CloseRecord, hnonempty, hopens, hserial, hres]
    · intro hfail
      cases hres : SaveToSerialRecord accept resources ⟨[], []⟩ with
      | mk ok record =>
        rw [hres] at hfail
        simp only at hfail
        subst hfail
        simp [Save, OpenRecord, AbortRecord, hnonempty, hopens, hserial, hres]

/-- Witness for C16: a segment that persists the record [1, 1, (3, 4)].  Saving the empty
ledger leaves it untouched; saving {(7, 42)} to a record that accepts every write commits
[1, 1, (7, 42)]; to a record that rejects every write it aborts. -/
theorem Save_commits_or_aborts_witness :
    Save (fun _ _ => true) []
        ⟨some (recordLayout [(3, 4)]), true, true, []⟩ =
      ⟨some (recordLayout [(3, 4)]), true, true, []⟩ ∧
    Save (fun _ _ => true) [(7, 42)] ⟨some (recordLayout [(3, 4)]), true, true, []⟩ =
      ⟨some (SaveToSerialRecord (fun _ _ => true) [(7, 42)] ⟨[], []⟩).2.fields, true, true,
        [] ++ [SegmentCall.openRecord, SegmentCall.closeRecord]⟩ ∧
    (SaveToSerialRecord (fun _ _ => true) [(7, 42)] ⟨[], []⟩).2.fields =
      recordLayout [(7, 42)] ∧
    Save (fun _ _ => false) [(7, 42)] ⟨some (recordLayout [(3, 4)]), true, true, []⟩ =
      ⟨some (recordLayout [(3, 4)]), true, true,
        [] ++ [SegmentCall.openRecord, SegmentCall.abortRecord]⟩ :=
  ⟨(Save_commits_or_aborts (fun _ _ => true) []
      ⟨some (recordLayout [(3, 4)]), true, true, []⟩).1 rfl,
   ((Save_commits_or_aborts (fun _ _ => true) [(7, 42)]
      ⟨some (recordLayout [(3, 4)]), true, true, []⟩).2.1 (by decide) rfl rfl).1 (by decide),
   by decide,
   ((Save_commits_or_aborts (fun _ _ => false) [(7, 42)]
      ⟨some (recordLayout [(3, 4)]), true, true, []⟩).2.1 (by decide) rfl rfl).2 (by decide)⟩

/-! ## Building properties -/

theorem pairUp_length : ∀ data : List Nat, (pairUp data).length = data.length / 2
  | [] => rfl
  | [_] => by simp [pairUp]
  | _ :: _ :: rest => by
    simp only [pairUp, List.length_cons, pairUp_length rest]
    omega

theorem pairUp_getElem? : ∀ (data : List Nat) (i : Nat), i < data.length / 2 →
    ∃ a b, data[2 * i]? = some a ∧ data[2 * i + 1]? = some b ∧
      (pairUp data)[i]? = some ⟨a, b⟩
  | [], i, h => by simp at h
  | [_], i, h => by
    simp only [List.length_singleton] at h
    omega
  | a :: b :: rest, i, h => by
    cases i with
    | zero => exact ⟨a, b, by simp, by simp, by simp [pairUp]⟩
    | succ i =>
      have hi : i < rest.length / 2 := by
        simp only [List.length_cons] at h
        omega
      obtain ⟨c, d, hc, hd, he⟩ := pairUp_getElem? rest i hi
      refine ⟨c, d, ?_, ?_, ?_⟩
      · have h2 : 2 * (i + 1) = 2 * i + 1 + 1 := by omega
        rw [h2, List.getElem?_cons_succ, List.getElem?_cons_succ]
        exact hc
      · have h2 : 2 * (i + 1) + 1 = 2 * i + 1 + 1 + 1 := by omega
        rw [h2, List.getElem?_cons_succ, List.getElem?_cons_succ]
        exact hd
      · simp only [pairUp, List.getElem?_cons_succ]
        exact he

theorem readEntries_eq_pairUp (data : List Nat) (hlen : data.length < UINT32_RANGE)
    (fuel i : Nat) (entries : List ResourceEntry) (hi : i ≤ data.length)
    (heven : (data.length - i) % 2 = 0) (hfuel : data.length - i ≤ 2 * fuel) :
    readEntries data data.length fuel i entries = some (entries ++ pairUp (data.drop i)) := by
  induction fuel generalizing i entries with
  | zero =>
    have hieq : i = data.length := by omega
    subst hieq
    simp [readEntries, pairUp]
  | succ fuel ih =>
    by_cases hlt : i < data.length
    · have hlt1 : i + 1 < data.length := by omega
      have hmod1 : (i + 1) % UINT32_RANGE = i + 1 := Nat.mod_eq_of_lt (by omega)
      have hmod2 : (i + 2) % UINT32_RANGE = i + 2 := by
        apply Nat.mod_eq_of_lt
        unfold UINT32_RANGE at hlen ⊢
        omega
      have h0 : data[i]? = some data[i] := List.getElem?_eq_getElem hlt
      have h1 : data[i + 1]? = some data[i + 1] := List.getElem?_eq_getElem hlt1
      have hdrop : data.drop i = data[i] :: data[i + 1] :: data.drop (i + 2) := by
        rw [List.drop_eq_getElem_cons hlt, List.drop_eq_getElem_cons hlt1]
      rw [readEntries, if_pos hlt, hmod1, hmod2, h0, h1]
      simp only
      rw [ih (i + 2) _ (by omega) (by omega) (by omega), hdrop, pairUp, List.append_assoc]
      rfl
    · have hieq : i = data.length := by omega
      subst hieq
      simp [readEntries, pairUp]

theorem GetResourceEntries_congr (holder1 holder2 : PropertyHolder) (id : Nat)
    (h : holder1 id = holder2 id) :
    GetResourceEntries holder1 id = GetResourceEntries holder2 id := by
  unfold GetResourceEntries
  rw [h]

theorem GetResourceEntries_withoutProperty (holder : PropertyHolder) (id : Nat) :
    GetResourceEntries (withoutProperty holder id) id = some (false, []) := by
  simp [GetResourceEntries, withoutProperty]

theorem GetResourceEntries_odd (holder : PropertyHolder) (id : Nat) (data : List Nat)
    (hprop : holder id = some (some (Variant.uint32Array data)))
    (hodd : data.length % 2 = 1) :
    GetResourceEntries holder id = some (false, []) := by
  have hne : ¬ data.length % 2 = 0 := by omega
  simp only [GetResourceEntries, hprop, hne, if_false]
  split <;> rfl

theorem GetResourceEntries_even (holder : PropertyHolder) (id : Nat) (data : List Nat)
    (hprop : holder id = some (some (Variant.uint32Array data)))
    (hlen : data.length < UINT32_RANGE) (hpos : 0 < data.length)
    (heven : data.length % 2 = 0) :
    GetResourceEntries holder id = some (true, pairUp data) := by
  have hread := readEntries_eq_pairUp data hlen data.length 0 [] (Nat.zero_le _)
    (by simpa using heven) (by omega)
  simp only [List.drop_zero, List.nil_append] at hread
  simp only [GetResourceEntries, hprop, gt_iff_lt, hpos, heven, if_true, hread]

theorem OccupantInserted_skip (resources : Ledger) (type id : Nat) (holder : PropertyHolder)
    (hskip : GetResourceEntries holder id = some (false, [])) :
    OccupantInserted resources ⟨type, holder⟩ =
      OccupantInserted resources ⟨type, withoutProperty holder id⟩ := by
  have hsame : ∀ j, GetResourceEntries (withoutProperty holder id) j =
      GetResourceEntries holder j := by
    intro j
    by_cases hj : j = id
    · subst hj
      rw [GetResourceEntries_withoutProperty, hskip]
    · exact GetResourceEntries_congr _ _ j (by simp [withoutProperty, hj])
  simp only [OccupantInserted, hsame]

theorem OccupantRemoved_skip (resources : Ledger) (type id : Nat) (holder : PropertyHolder)
    (hskip : GetResourceEntries holder id = some (false, [])) :
    OccupantRemoved resources ⟨type, holder⟩ =
      OccupantRemoved resources ⟨type, withoutProperty holder id⟩ := by
  have hsame : ∀ j, GetResourceEntries (withoutProperty holder id) j =
      GetResourceEntries holder j := by
    intro j
    by_cases hj : j = id
    · subst hj
      rw [GetResourceEntries_withoutProperty, hskip]
    · exact GetResourceEntries_congr _ _ j (by simp [withoutProperty, hj])
  simp only [OccupantRemoved, hsame]

/-- C12: a malformed building property is skipped entirely.  For a property that is a uint32
array of odd length, GetResourceEntries returns false with an empty entry list, and
OccupantInserted and OccupantRemoved leave the ledger exactly as they would if the occupant
did not have that property (consumed or produced); for an array of even non-zero length 2k
GetResourceEntries returns true with exactly k entries, the i-th being (data[2i], data[2i+1]),
both indices lying inside the array, and no read falling outside it. -/
theorem GetResourceEntries_pairs (resources : Ledger) (type : Nat) (holder : PropertyHolder)
    (id : Nat) (data : List Nat)
    (hprop : holder id = some (some (Variant.uint32Array data)))
    (hlen : data.length < UINT32_RANGE) :
    (data.length % 2 = 1 →
      GetResourceEntries holder id = some (false, []) ∧
      ((id = RegionalSupplyConsumed ∨ id = RegionalSupplyProduced) →
        OccupantInserted resources ⟨type, holder⟩ =
          OccupantInserted resources ⟨type, withoutProperty holder id⟩ ∧
        OccupantRemoved resources ⟨type, holder⟩ =
          OccupantRemoved resources ⟨type, withoutProperty holder id⟩)) ∧
    (∀ k, 0 < k → data.length = 2 * k →
      ∃ entries, GetResourceEntries holder id = some (true, entries) ∧
        entries.length = k ∧
        ∀ i, i < k → ∃ a b, data[2 * i]? = some a ∧ data[2 * i + 1]? = some b ∧
          entries[i]? = some ⟨a, b⟩) := by
  constructor
  · intro hodd
    have hskip := GetResourceEntries_odd holder id data hprop hodd
    exact ⟨hskip, fun _ =>
      ⟨OccupantInserted_skip resources type id holder hskip,
        OccupantRemoved_skip resources type id holder hskip⟩⟩
  · intro k hk hdata
    refine ⟨pairUp data,
      GetResourceEntries_even holder id data hprop hlen (by omega) (by omega), ?_, ?_⟩
    · rw [pairUp_length, hdata]
      omega
    · intro i hi
      exact pairUp_getElem? data i (by omega)

/-- Witness for C12: the odd array [1, 2, 3] as both properties of a building, and the even
array [10, 5, 20, 7], which yields the entries (10, 5), (20, 7). -/
theorem GetResourceEntries_pairs_witness :
    ((fun _ => some (some (Variant.uint32Array [1, 2, 3])) : PropertyHolder)
        RegionalSupplyConsumed = some (some (Variant.uint32Array [1, 2, 3])) ∧
      [1, 2, 3].length < UINT32_RANGE) ∧
    GetResourceEntries (fun _ => some (some (Variant.uint32Array [1, 2, 3])))
      RegionalSupplyConsumed = some (false, []) ∧
    (∃ entries, GetResourceEntries (fun _ => some (some (Variant.uint32Array [10, 5, 20, 7])))
        RegionalSupplyProduced = some (true, entries) ∧
      entries.length = 2 ∧
      ∀ i, i < 2 → ∃ a b, [10, 5, 20, 7][2 * i]? = some a ∧
        [10, 5, 20, 7][2 * i + 1]? = some b ∧ entries[i]? = some ⟨a, b⟩) ∧
    GetResourceEntries (fun _ => some (some (Variant.uint32Array [10, 5, 20, 7])))
      RegionalSupplyProduced = some (true, [⟨10, 5⟩, ⟨20, 7⟩]) :=
  ⟨⟨rfl, by decide⟩,
   ((GetResourceEntries_pairs [(1, 50)] OccupantTypeBuilding
      (fun _ => some (some (Variant.uint32Array [1, 2, 3]))) RegionalSupplyConsumed [1, 2, 3]
      rfl (by decide)).1 (by decide)).1,
   (GetResourceEntries_pairs [(1, 50)] OccupantTypeBuilding
      (fun _ => some (some (Variant.uint32Array [10, 5, 20, 7]))) RegionalSupplyProduced
      [10, 5, 20, 7] rfl (by decide)).2 2 (by decide) (by decide),
   by decide⟩

/-! ## The balance as the net of the calls -/

theorem GetResourceQuantity_fst (resources : Ledger) (j : Nat) :
    (GetResourceQuantity resources j).1 = (find resources j).getD 0 := by
  unfold GetResourceQuantity
  cases find resources j <;> rfl

theorem isInt64_wrapInt64 (x : Int) : IsInt64 (wrapInt64 x) := by
  unfold IsInt64 INT64_MIN INT64_MAX wrapInt64
  omega

theorem wrapInt64_wrapInt64_add (x y : Int) :
    wrapInt64 (wrapInt64 x + y) = wrapInt64 (x + y) := by
  unfold wrapInt64
  omega

theorem isInt64_quantity {resources : Ledger} (hwf : WellFormed resources) (j : Nat) :
    IsInt64 ((GetResourceQuantity resources j).1) := by
  rw [GetResourceQuantity_fst]
  cases hfind : find resources j with
  | some b => exact isInt64_of_find hwf hfind
  | none => decide

theorem quantity_AddToSupply (resources : Ledger) (i amount j : Nat)
    (hamount : amount < UINT32_RANGE) :
    (GetResourceQuantity (AddToSupply resources i amount) j).1 =
      if i = j then wrapInt64 ((GetResourceQuantity resources j).1 + (amount : Int))
      else (GetResourceQuantity resources j).1 := by
  have hrange : IsInt64 (amount : Int) := by
    unfold UINT32_RANGE at hamount
    unfold IsInt64 INT64_MIN INT64_MAX
    omega
  simp only [GetResourceQuantity_fst]
  by_cases hij : i = j
  · subst hij
    simp only [if_true]
    cases hfind : find resources i with
    | some b =>
      simp only [AddToSupply, hfind, find_assign_same, Option.map_some', Option.getD_some]
    | none =>
      simp only [AddToSupply, hfind, find_emplace, Option.getD_none, zero_add,
        wrapInt64_of_isInt64 hrange]
      simp
  · have hji : j ≠ i := fun h => hij h.symm
    simp only [hij, if_false]
    cases hfind : find resources i with
    | some b => simp only [AddToSupply, hfind, find_assign_other _ _ _ _ hji]
    | none =>
      simp only [AddToSupply, hfind, find_emplace, hij, if_false]
      cases find resources j <;> rfl

theorem quantity_RemoveFromSupply (resources : Ledger) (i amount j : Nat)
    (hamount : amount < UINT32_RANGE) :
    (GetResourceQuantity (RemoveFromSupply resources i amount) j).1 =
      if i = j then wrapInt64 ((GetResourceQuantity resources j).1 + -(amount : Int))
      else (GetResourceQuantity resources j).1 := by
  have hrange : IsInt64 (-(amount : Int)) := by
    unfold UINT32_RANGE at hamount
    unfold IsInt64 INT64_MIN INT64_MAX
    omega
  simp only [GetResourceQuantity_fst]
  by_cases hij : i = j
  · subst hij
    simp only [if_true]
    cases hfind : find resources i with
    | some b =>
      simp only [RemoveFromSupply, hfind, find_assign_same, Option.map_some',
        Option.getD_some, sub_eq_add_neg]
    | none =>
      simp only [RemoveFromSupply, hfind, find_emplace, Option.getD_none, zero_add,
        wrapInt64_of_isInt64 hrange]
      simp
  · have hji : j ≠ i := fun h => hij h.symm
    simp only [hij, if_false]
    cases hfind : find resources i with
    | some b => simp only [RemoveFromSupply, hfind, find_assign_other _ _ _ _ hji]
    | none =>
      simp only [RemoveFromSupply, hfind, find_emplace, hij, if_false]
      cases find resources j <;> rfl

theorem quantity_applyCall (resources : Ledger) (call : Call) (j : Nat)
    (hamount : call.amount < UINT32_RANGE)
    (hrange : IsInt64 ((GetResourceQuantity resources j).1)) :
    (GetResourceQuantity (applyCall resources call) j).1 =
      wrapInt64 ((GetResourceQuantity resources j).1 + contribution j call) := by
  have hzero : (GetResourceQuantity resources j).1 =
      wrapInt64 ((GetResourceQuantity resources j).1 + 0) := by
    rw [add_zero, wrapInt64_of_isInt64 hrange]
  cases call with
  | addToSupply i amount =>
    simp only [applyCall, contribution, quantity_AddToSupply resources i amount j hamount]
    split
    · rfl
    · exact hzero
  | removeFromSupply i amount =>
    simp only [applyCall, contribution, quantity_RemoveFromSupply resources i amount j hamount]
    split
    · rfl
    · exact hzero
  | addToDemand i amount =>
    simp only [applyCall, contribution, AddToDemand,
      quantity_RemoveFromSupply resources i amount j hamount]
    split
    · rfl
    · exact hzero
  | removeFromDemand i amount =>
    simp only [applyCall, contribution, RemoveFromDemand,
      quantity_AddToSupply resources i amount j hamount]
    split
    · rfl
    · exact hzero

theorem quantity_runCalls (calls : List Call) (resources : Ledger) (j : Nat)
    (hamounts : ∀ c ∈ calls, c.amount < UINT32_RANGE)
    (hrange : IsInt64 ((GetResourceQuantity resources j).1)) :
    (GetResourceQuantity (runCalls calls resources) j).1 =
      wrapInt64 ((GetResourceQuantity resources j).1 + net calls j) := by
  induction calls generalizing resources with
  | nil =>
    simp only [runCalls, List.foldl_nil, net, List.map_nil, List.sum_nil, add_zero,
      wrapInt64_of_isInt64 hrange]
  | cons c rest ih =>
    have hc : c.amount < UINT32_RANGE := hamounts c (List.mem_cons_self _ _)
    have hrest : ∀ d ∈ rest, d.amount < UINT32_RANGE :=
      fun d hd => hamounts d (List.mem_cons_of_mem _ hd)
    have hstep := quantity_applyCall resources c j hc hrange
    have hrange1 : IsInt64 ((GetResourceQuantity (applyCall resources c) j).1) := by
      rw [hstep]
      exact isInt64_wrapInt64 _
    have hrun : runCalls (c :: rest) resources = runCalls rest (applyCall resources c) := rfl
    rw [hrun, ih (applyCall resources c) hrest hrange1, hstep, wrapInt64_wrapInt64_add]
    simp only [net, List.map_cons, List.sum_cons, add_assoc]

theorem net_append (calls1 calls2 : List Call) (j : Nat) :
    net (calls1 ++ calls2) j = net calls1 j + net calls2 j := by
  simp only [net, List.map_append, List.sum_append]

theorem net_perm {calls1 calls2 : List Call} (hperm : calls1.Perm calls2) (j : Nat) :
    net calls1 j = net calls2 j :=
  (hperm.map (contribution j)).sum_eq

theorem contribution_of_not_onId (j : Nat) (call : Call) (h : call.onId j = false) :
    contribution j call = 0 := by
  cases call <;> simp_all [Call.onId, contribution]

theorem net_filter_onId (calls : List Call) (j : Nat) :
    net (calls.filter (Call.onId j)) j = net calls j := by
  induction calls with
  | nil => rfl
  | cons c rest ih =>
    cases hc : c.onId j with
    | true =>
      simp only [List.filter_cons, hc, if_true]
      simp only [net, List.map_cons, List.sum_cons] at ih ⊢
      rw [ih]
    | false =>
      simp only [List.filter_cons, hc]
      simp only [net, List.map_cons, List.sum_cons, contribution_of_not_onId j c hc,
        zero_add] at ih ⊢
      simpa using ih

theorem isInt64_quantity_nil (j : Nat) : IsInt64 ((GetResourceQuantity [] j).1) := by
  have h0 : (GetResourceQuantity [] j).1 = 0 := rfl
  rw [h0]
  decide

/-- C14: the balance is the net of supply minus demand.  Starting from an empty ledger, after
every finite sequence of AddToSupply, RemoveFromSupply, AddToDemand and RemoveFromDemand
calls with amounts in the unsigned 32-bit range, whose net for id (the sum of the amounts of
the AddToSupply and RemoveFromDemand calls on id minus the sum of the amounts of the
RemoveFromSupply and AddToDemand calls on id) is a signed 64-bit value, as it is when no call
overflows, GetResourceQuantity(id) equals that net; it is the same for every reordering
of the calls and for the calls on id alone. -/
theorem balance_is_net_of_calls (calls : List Call) (resourceID : Nat)
    (hamounts : ∀ c ∈ calls, c.amount < UINT32_RANGE)
    (hfit : IsInt64 (net calls resourceID)) :
    (GetResourceQuantity (runCalls calls []) resourceID).1 = net calls resourceID ∧
    (∀ reordered : List Call, reordered.Perm calls →
      (GetResourceQuantity (runCalls reordered []) resourceID).1 =
        (GetResourceQuantity (runCalls calls []) resourceID).1) ∧
    (GetResourceQuantity (runCalls (calls.filter (Call.onId resourceID)) []) resourceID).1 =
      (GetResourceQuantity (runCalls calls []) resourceID).1 := by
  have hmain : (GetResourceQuantity (runCalls calls []) resourceID).1 = net calls resourceID := by
    rw [quantity_runCalls calls [] resourceID hamounts (isInt64_quantity_nil _)]
    have h0 : (GetResourceQuantity [] resourceID).1 = 0 := rfl
    rw [h0, zero_add, wrapInt64_of_isInt64 hfit]
  refine ⟨hmain, ?_, ?_⟩
  · intro reordered hperm
    have hamounts2 : ∀ c ∈ reordered, c.amount < UINT32_RANGE :=
      fun c hc => hamounts c (hperm.mem_iff.mp hc)
    rw [quantity_runCalls reordered [] resourceID hamounts2 (isInt64_quantity_nil _),
      quantity_runCalls calls [] resourceID hamounts (isInt64_quantity_nil _),
      net_perm hperm]
  · have hamounts2 : ∀ c ∈ calls.filter (Call.onId resourceID), c.amount < UINT32_RANGE :=
      fun c hc => hamounts c (List.mem_filter.mp hc).1
    rw [quantity_runCalls _ [] resourceID hamounts2 (isInt64_quantity_nil _),
      quantity_runCalls calls [] resourceID hamounts (isInt64_quantity_nil _),
      net_filter_onId]

/-- Witness for C14: AddToSupply(1, 100), AddToDemand(1, 30) gives 70; followed by
RemoveFromDemand(1, 30) it gives 100; followed by RemoveFromSupply(1, 100) it gives 0. -/
theorem balance_is_net_of_calls_witness :
    ((∀ c ∈ [Call.addToSupply 1 100, Call.addToDemand 1 30], c.amount < UINT32_RANGE) ∧
      IsInt64 (net [Call.addToSupply 1 100, Call.addToDemand 1 30] 1)) ∧
    (GetResourceQuantity (runCalls [Call.addToSupply 1 100, Call.addToDemand 1 30] []) 1).1 =
      net [Call.addToSupply 1 100, Call.addToDemand 1 30] 1 ∧
    net [Call.addToSupply 1 100, Call.addToDemand 1 30] 1 = 70 ∧
    (GetResourceQuantity (runCalls
      [Call.addToSupply 1 100, Call.addToDemand 1 30, Call.removeFromDemand 1 30] []) 1).1 =
      net [Call.addToSupply 1 100, Call.addToDemand 1 30, Call.removeFromDemand 1 30] 1 ∧
    net [Call.addToSupply 1 100, Call.addToDemand 1 30, Call.removeFromDemand 1 30] 1 = 100 ∧
    (GetResourceQuantity (runCalls
      [Call.addToSupply 1 100, Call.addToDemand 1 30, Call.removeFromDemand 1 30,
        Call.removeFromSupply 1 100] []) 1).1 =
      net [Call.addToSupply 1 100, Call.addToDemand 1 30, Call.removeFromDemand 1 30,
        Call.removeFromSupply 1 100] 1 ∧
    net [Call.addToSupply 1 100, Call.addToDemand 1 30, Call.removeFromDemand 1 30,
      Call.removeFromSupply 1 100] 1 = 0 :=
  ⟨⟨by decide, by decide⟩,
   (balance_is_net_of_calls [Call.addToSupply 1 100, Call.addToDemand 1 30] 1
      (by decide) (by decide)).1,
   by decide,
   (balance_is_net_of_calls
      [Call.addToSupply 1 100, Call.addToDemand 1 30, Call.removeFromDemand 1 30] 1
      (by decide) (by decide)).1,
   by decide,
   (balance_is_net_of_calls
      [Call.addToSupply 1 100, Call.addToDemand 1 30, Call.removeFromDemand 1 30,
        Call.removeFromSupply 1 100] 1 (by decide) (by decide)).1,
   by decide⟩

/-! ## Placing and removing a building -/

theorem pairUp_amount_mem : ∀ (data : List Nat) (e : ResourceEntry), e ∈ pairUp data →
    e.amount ∈ data
  | [], e, h => by simp [pairUp] at h
  | [_], e, h => by simp [pairUp] at h
  | a :: b :: rest, e, h => by
    simp only [pairUp, List.mem_cons] at h
    rcases h with h | h
    · subst h
      simp
    · have := pairUp_amount_mem rest e h
      simp [this]

theorem GetResourceEntries_total (holder : PropertyHolder) (id : Nat)
    (hvalid : ValidProperty holder id) :
    ∃ ok entries, GetResourceEntries holder id = some (ok, entries) ∧
      (ok = false → entries = []) ∧ ∀ e ∈ entries, e.amount < UINT32_RANGE := by
  have hnone : ∃ ok entries, (some (false, []) : Option (Bool × List ResourceEntry)) =
      some (ok, entries) ∧ (ok = false → entries = []) ∧
      ∀ e ∈ entries, e.amount < UINT32_RANGE :=
    ⟨false, [], rfl, fun _ => rfl, fun e he => absurd he (List.not_mem_nil e)⟩
  cases hprop : holder id with
  | none => simpa only [GetResourceEntries, hprop] using hnone
  | some value =>
    cases value with
    | none => simpa only [GetResourceEntries, hprop] using hnone
    | some variant =>
      cases variant with
      | other => simpa only [GetResourceEntries, hprop] using hnone
      | uint32Array data =>
        obtain ⟨hlen, helems⟩ := hvalid data hprop
        by_cases hgood : 0 < data.length ∧ data.length % 2 = 0
        · refine ⟨true, pairUp data,
            GetResourceEntries_even holder id data hprop hlen hgood.1 hgood.2,
            fun h => Bool.noConfusion h, ?_⟩
          intro e he
          exact helems _ (pairUp_amount_mem data e he)
        · have hskip : GetResourceEntries holder id = some (false, []) := by
            by_cases hpos : 0 < data.length
            · exact GetResourceEntries_odd holder id data hprop (by omega)
            · simp only [GetResourceEntries, hprop, gt_iff_lt, hpos, if_false]
          rw [hskip]
          exact hnone

theorem runCalls_append (calls1 calls2 : List Call) (resources : Ledger) :
    runCalls (calls1 ++ calls2) resources = runCalls calls2 (runCalls calls1 resources) := by
  simp only [runCalls, List.foldl_append]

theorem foldl_guarded (ok : Bool) (entries : List ResourceEntry)
    (f : Ledger → ResourceEntry → Ledger) (resources : Ledger)
    (hempty : ok = false → entries = []) :
    (if ok then entries.foldl f resources else resources) = entries.foldl f resources := by
  cases ok with
  | true => rfl
  | false =>
    rw [hempty rfl]
    rfl

theorem OccupantInserted_building (resources : Ledger) (holder : PropertyHolder)
    (ok1 ok2 : Bool) (entries1 entries2 : List ResourceEntry)
    (h1 : GetResourceEntries holder RegionalSupplyConsumed = some (ok1, entries1))
    (h2 : GetResourceEntries holder RegionalSupplyProduced = some (ok2, entries2))
    (hempty1 : ok1 = false → entries1 = []) (hempty2 : ok2 = false → entries2 = []) :
    OccupantInserted resources ⟨OccupantTypeBuilding, holder⟩ =
      some (runCalls (entries1.map (fun e => Call.addToDemand e.id e.amount) ++
        entries2.map (fun e => Call.addToSupply e.id e.amount)) resources) := by
  simp only [OccupantInserted, if_true, h1, h2, foldl_guarded ok1 entries1 _ _ hempty1]
  have hfold : (if ok2 = true then
      some (entries2.foldl (fun r entry => AddToSupply r entry.id entry.amount)
        (entries1.foldl (fun r entry => AddToDemand r entry.id entry.amount) resources))
      else some (entries1.foldl (fun r entry => AddToDemand r entry.id entry.amount) resources)) =
      some (entries2.foldl (fun r entry => AddToSupply r entry.id entry.amount)
        (entries1.foldl (fun r entry => AddToDemand r entry.id entry.amount) resources)) := by
    cases ok2 with
    | true => rfl
    | false =>
      rw [hempty2 rfl]
      rfl
  rw [hfold, runCalls_append]
  simp only [runCalls, List.foldl_map, applyCall]

theorem OccupantRemoved_building (resources : Ledger) (holder : PropertyHolder)
    (ok1 ok2 : Bool) (entries1 entries2 : List ResourceEntry)
    (h1 : GetResourceEntries holder RegionalSupplyConsumed = some (ok1, entries1))
    (h2 : GetResourceEntries holder RegionalSupplyProduced = some (ok2, entries2))
    (hempty1 : ok1 = false → entries1 = []) (hempty2 : ok2 = false → entries2 = []) :
    OccupantRemoved resources ⟨OccupantTypeBuilding, holder⟩ =
      some (runCalls (entries1.map (fun e => Call.removeFromDemand e.id e.amount) ++
        entries2.map (fun e => Call.removeFromSupply e.id e.amount)) resources) := by
  simp only [OccupantRemoved, if_true, h1, h2, foldl_guarded ok1 entries1 _ _ hempty1]
  have hfold : (if ok2 = true then
      some (entries2.foldl (fun r entry => RemoveFromSupply r entry.id entry.amount)
        (entries1.foldl (fun r entry => RemoveFromDemand r entry.id entry.amount) resources))
      else
        some (entries1.foldl (fun r entry => RemoveFromDemand r entry.id entry.amount)
          resources)) =
      some (entries2.foldl (fun r entry => RemoveFromSupply r entry.id entry.amount)
        (entries1.foldl (fun r entry => RemoveFromDemand r entry.id entry.amount)
          resources)) := by
    cases ok2 with
    | true => rfl
    | false =>
      rw [hempty2 rfl]
      rfl
  rw [hfold, runCalls_append]
  simp only [runCalls, List.foldl_map, applyCall]

theorem net_demand_cancel (entries : List ResourceEntry) (j : Nat) :
    net (entries.map (fun e => Call.addToDemand e.id e.amount)) j +
      net (entries.map (fun e => Call.removeFromDemand e.id e.amount)) j = 0 := by
  induction entries with
  | nil => rfl
  | cons e rest ih =>
    simp only [net, List.map_cons, List.sum_cons, contribution] at ih ⊢
    split <;> omega

theorem net_supply_cancel (entries : List ResourceEntry) (j : Nat) :
    net (entries.map (fun e => Call.addToSupply e.id e.amount)) j +
      net (entries.map (fun e => Call.removeFromSupply e.id e.amount)) j = 0 := by
  induction entries with
  | nil => rfl
  | cons e rest ih =>
    simp only [net, List.map_cons, List.sum_cons, contribution] at ih ⊢
    split <;> omega

/-- C15: placing and then removing a building nets to zero.  For every ledger and every
occupant whose consumed and produced properties are the same at both events, handling
occupant-inserted and then occupant-removed succeeds and leaves GetResourceQuantity(id) equal
to its prior value for every id (the ledger itself may have gained entries of balance 0); for
an occupant that is not a building both handlers leave the ledger as it is. -/
theorem occupant_insert_then_remove (resources : Ledger) (pOccupant : Occupant)
    (hwf : WellFormed resources)
    (hconsumed : ValidProperty pOccupant.holder RegionalSupplyConsumed)
    (hproduced : ValidProperty pOccupant.holder RegionalSupplyProduced) :
    (∃ inserted removed, OccupantInserted resources pOccupant = some inserted ∧
      OccupantRemoved inserted pOccupant = some removed ∧
      ∀ id, (GetResourceQuantity removed id).1 = (GetResourceQuantity resources id).1) ∧
    (pOccupant.type ≠ OccupantTypeBuilding →
      OccupantInserted resources pOccupant = some resources ∧
      OccupantRemoved resources pOccupant = some resources) := by
  obtain ⟨type, holder⟩ := pOccupant
  have hother : type ≠ OccupantTypeBuilding →
      OccupantInserted resources ⟨type, holder⟩ = some resources ∧
      OccupantRemoved resources ⟨type, holder⟩ = some resources := by
    intro hne
    simp only [OccupantInserted, OccupantRemoved, hne, if_false, and_self]
  refine ⟨?_, hother⟩
  by_cases htype : type = OccupantTypeBuilding
  · subst htype
    obtain ⟨ok1, entries1, h1, hempty1, hamounts1⟩ :=
      GetResourceEntries_total holder RegionalSupplyConsumed hconsumed
    obtain ⟨ok2, entries2, h2, hempty2, hamounts2⟩ :=
      GetResourceEntries_total holder RegionalSupplyProduced hproduced
    refine ⟨_, _,
      OccupantInserted_building resources holder ok1 ok2 entries1 entries2 h1 h2
        hempty1 hempty2,
      OccupantRemoved_building _ holder ok1 ok2 entries1 entries2 h1 h2 hempty1 hempty2, ?_⟩
    intro id
    rw [← runCalls_append]
    have hamounts : ∀ c ∈ (entries1.map (fun e => Call.addToDemand e.id e.amount) ++
        entries2.map (fun e => Call.addToSupply e.id e.amount)) ++
        (entries1.map (fun e => Call.removeFromDemand e.id e.amount) ++
        entries2.map (fun e => Call.removeFromSupply e.id e.amount)),
        c.amount < UINT32_RANGE := by
      intro c hc
      simp only [List.mem_append, List.mem_map] at hc
      rcases hc with (⟨e, he, rfl⟩ | ⟨e, he, rfl⟩) | (⟨e, he, rfl⟩ | ⟨e, he, rfl⟩)
      · exact hamounts1 e he
      · exact hamounts2 e he
      · exact hamounts1 e he
      · exact hamounts2 e he
    have hrange := isInt64_quantity hwf id
    rw [quantity_runCalls _ resources id hamounts hrange]
    have hnet : net ((entries1.map (fun e => Call.addToDemand e.id e.amount) ++
        entries2.map (fun e => Call.addToSupply e.id e.amount)) ++
        (entries1.map (fun e => Call.removeFromDemand e.id e.amount) ++
        entries2.map (fun e => Call.removeFromSupply e.id e.amount))) id = 0 := by
      have hd := net_demand_cancel entries1 id
      have hs := net_supply_cancel entries2 id
      simp only [net_append]
      omega
    rw [hnet, add_zero, wrapInt64_of_isInt64 hrange]
  · obtain ⟨hins, hrem⟩ := hother htype
    exact ⟨resources, resources, hins, hrem, fun _ => rfl⟩

/-- Witness for C15: on the empty ledger, a building whose consumed and produced properties
are both the array [1, 5].  Inserting it gives {(1, 0)} by way of {(1, -5)}; removing it
leaves the entry (1, 0): quantity(1) is 0 as before, and the entry has been created. -/
theorem occupant_insert_then_remove_witness :
    (WellFormed [] ∧
      ValidProperty (fun _ => some (some (Variant.uint32Array [1, 5])))
        RegionalSupplyConsumed ∧
      ValidProperty (fun _ => some (some (Variant.uint32Array [1, 5])))
        RegionalSupplyProduced) ∧
    (∃ inserted removed,
      OccupantInserted []
        ⟨OccupantTypeBuilding, fun _ => some (some (Variant.uint32Array [1, 5]))⟩ =
        some inserted ∧
      OccupantRemoved inserted
        ⟨OccupantTypeBuilding, fun _ => some (some (Variant.uint32Array [1, 5]))⟩ =
        some removed ∧
      ∀ id, (GetResourceQuantity removed id).1 = (GetResourceQuantity [] id).1) ∧
    OccupantInserted []
      ⟨OccupantTypeBuilding, fun _ => some (some (Variant.uint32Array [1, 5]))⟩ =
      some [(1, 0)] ∧
    OccupantRemoved [(1, 0)]
      ⟨OccupantTypeBuilding, fun _ => some (some (Variant.uint32Array [1, 5]))⟩ =
      some [(1, 0)] :=
  have hvalid : ∀ id, ValidProperty (fun _ => some (some (Variant.uint32Array [1, 5]))) id := by
    intro id data h
    simp only [Option.some.injEq, Variant.uint32Array.injEq] at h
    subst h
    unfold ValidArray
    decide
  ⟨⟨by decide, hvalid _, hvalid _⟩,
   (occupant_insert_then_remove []
      ⟨OccupantTypeBuilding, fun _ => some (some (Variant.uint32Array [1, 5]))⟩
      (by decide) (hvalid _) (hvalid _)).1,
   by decide,
   by decide⟩

end RegionalSupply
